import Mathlib

/-!
Verification of the diff-analysis engine of `summary.py` (class `DiffAnalyzer`
plus its helpers).  The Python code is shallowly embedded: every method is
translated into an executable Lean function over an explicit state record.
Python strings are modelled as Lean `String` (a wrapper around `List Char`),
Python dicts keyed by strings as insertion-ordered association lists with
replace-in-place update (matching dict semantics), and Python sets of file
paths as duplicate-free lists.  Character classes of the regexes (`\s`, `\d`)
are modelled by their ASCII/choice sets listed below; the classification
claims settled here do not depend on the exotic Unicode members of those
classes.
-/

/-- Whitespace set used for Python `\s` in `re` patterns and `str.strip`,
covering the ASCII whitespace characters plus the common Unicode ones. -/
def isPySpace (c : Char) : Bool :=
  c = ' ' || c = '\t' || c = '\n' || c = '\r' || c = '\x0b' || c = '\x0c' ||
  c = '\x1c' || c = '\x1d' || c = '\x1e' || c = '\x1f' || c = '\x85' ||
  c = '\xa0' || c = ' ' || c = ' ' || c = ' ' || c = ' ' ||
  c = ' ' || c = ' ' || c = ' ' || c = ' ' || c = ' ' ||
  c = ' ' || c = ' ' || c = ' ' || c = ' ' || c = ' ' ||
  c = ' ' || c = ' ' || c = '　'

/-- Line-boundary characters of Python `str.splitlines` other than `'\r'`
(which is handled separately so that `"\r\n"` counts as one boundary). -/
def isLineBreak (c : Char) : Bool :=
  c = '\n' || c = '\x0b' || c = '\x0c' || c = '\x1c' || c = '\x1d' ||
  c = '\x1e' || c = '\x85' || c = ' ' || c = ' '

/-- Core of `str.splitlines`: accumulator holds the current line reversed;
a `"\r\n"` pair is one boundary, a lone `'\r'` is also a boundary. -/
def splitLinesAux (acc : List Char) : List Char → List (List Char)
  | [] => if acc.isEmpty then [] else [acc.reverse]
  | '\r' :: '\n' :: cs => acc.reverse :: splitLinesAux [] cs
  | '\r' :: cs => acc.reverse :: splitLinesAux [] cs
  | c :: cs =>
    if isLineBreak c then acc.reverse :: splitLinesAux [] cs
    else splitLinesAux (c :: acc) cs

/-- Model of the call diff.splitlines() (src/summary.py:104). -/
def splitLines (s : String) : List String :=
  (splitLinesAux [] s.data).map (fun l => ⟨l⟩)

/-- Model of a.startswith(p). -/
def strStartsWith (s p : String) : Bool :=
  p.data.isPrefixOf s.data

/-- Model of a.endswith(p). -/
def strEndsWith (s p : String) : Bool :=
  p.data.isSuffixOf s.data

/-- Leftmost occurrence index of `needle`, on character lists. -/
def firstOccurAux (needle : List Char) : List Char → Option Nat
  | [] => if needle.isEmpty then some 0 else none
  | c :: rest =>
    if needle.isPrefixOf (c :: rest) then some 0
    else (firstOccurAux needle rest).map (· + 1)

/-- Model of s.find(needle), with none in place of the Python result -1. -/
def strFind (s needle : String) : Option Nat :=
  firstOccurAux needle.data s.data

/-- Model of the membership test needle in s. -/
def containsSub (s needle : String) : Bool :=
  (strFind s needle).isSome

/-- Model of s.split(sep)[0]: the prefix before the first occurrence of sep
(the whole string when `sep` does not occur). -/
def splitFirst (s sep : String) : String :=
  match strFind s sep with
  | some i => ⟨s.data.take i⟩
  | none => s

/-- Model of s.strip(). -/
def pyStrip (s : String) : String :=
  ⟨((s.data.dropWhile isPySpace).reverse.dropWhile isPySpace).reverse⟩

/-- Model of line.lstrip with the strip set plus, minus, space (src/summary.py:162). -/
def lstripPM (s : String) : String :=
  ⟨s.data.dropWhile (fun c => c = '+' || c = '-' || c = ' ')⟩

/-- Model of re.sub of the pattern caret-[+-]-backslash-s-star with "" (src/summary.py:164): one leading + or
`-` and the maximal following whitespace run are removed. -/
def subPM (s : String) : String :=
  match s.data with
  | c :: rest => if c = '+' || c = '-' then ⟨rest.dropWhile isPySpace⟩ else s
  | [] => s

/-- The anchored match of the file-header regex diff --git a/(.+) b/(.+)
(src/summary.py:95,126), returning group 2.  The two greedy `.+` groups make
group 2 the nonempty suffix after the last `" b/"` that leaves a nonempty
group 1; `.` cannot match a newline but split lines contain none. -/
def parseFileHeader (line : String) : Option String :=
  if ("diff --git a/".data).isPrefixOf line.data then
    let rest := line.data.drop 13
    match (List.range rest.length).filter
        (fun p => decide (1 ≤ p) && (" b/".data.isPrefixOf (rest.drop p)) &&
          decide (p + 3 < rest.length)) |>.getLast? with
    | some p => some ⟨rest.drop (p + 3)⟩
    | none => none
  else none

/-- Numeric value of a decimal digit string, as in `int(...)`
(src/summary.py:138-139). -/
def digitsVal (l : List Char) : Nat :=
  l.foldl (fun a c => 10 * a + (c.toNat - 48)) 0

/-- The anchored match of the hunk-header regex @@ -(d+),?(d*) +(d+),?(d*) @@ with d the digit class
(src/summary.py:96,137-139), returning the pair of int(group 1) and int(group 3).  The
backtracking regex is equivalent to this deterministic scan: a maximal digit
run, an optional comma, a maximal digit run, then the literal separator. -/
def dropComma (l : List Char) : List Char :=
  if l.head? = some ',' then l.drop 1 else l

/-- Step three of the hunk-header scan: skip the second maximal digit run
of a pair, then require the literal closing separator. -/
def parseHunkAfterD3 (o n : Nat) (r4b : List Char) : Option (Nat × Nat) :=
  if (" @@".data).isPrefixOf (r4b.drop (r4b.takeWhile Char.isDigit).length) then
    some (o, n)
  else none

/-- Step two of the hunk-header scan: skip the optional count of the first
pair, require the space-plus separator, then read the new-start digit run. -/
def parseHunkAfterD1 (o : Nat) (r1b : List Char) : Option (Nat × Nat) :=
  match r1b.drop (r1b.takeWhile Char.isDigit).length with
  | ' ' :: '+' :: r3 =>
    if (r3.takeWhile Char.isDigit).isEmpty then none
    else
      parseHunkAfterD3 o (digitsVal (r3.takeWhile Char.isDigit))
        (dropComma (r3.drop (r3.takeWhile Char.isDigit).length))
  | _ => none

/-- Step one of the hunk-header scan: the old-start digit run. -/
def parseHunkBody (r0 : List Char) : Option (Nat × Nat) :=
  if (r0.takeWhile Char.isDigit).isEmpty then none
  else
    parseHunkAfterD1 (digitsVal (r0.takeWhile Char.isDigit))
      (dropComma (r0.drop (r0.takeWhile Char.isDigit).length))

def parseHunkHeader (line : String) : Option (Nat × Nat) :=
  if ("@@ -".data).isPrefixOf line.data then parseHunkBody (line.data.drop 4)
  else none

/-- Character class `[^\s\(\{:]` of the name-extraction pattern. -/
def isNameChar (c : Char) : Bool :=
  !(isPySpace c || c = '(' || c = '\x7b' || c = ':')

/-- One alternative of the name-extraction pattern tried at a fixed position:
the keyword, then `\s+`, then a maximal nonempty `[^\s\(\{:]+` token. -/
def tryKeywordAt (kw : List Char) (suffix : List Char) : Option (List Char) :=
  if kw.isPrefixOf suffix then
    let after := suffix.drop kw.length
    let ws := after.takeWhile isPySpace
    if ws.isEmpty then none
    else
      let nm := (after.drop ws.length).takeWhile isNameChar
      if nm.isEmpty then none else some nm
  else none

/-- The keyword alternation tried in list order at one position. -/
def pickKeyword : List (List Char) → List Char → Option (List Char)
  | [], _ => none
  | kw :: ks, suf =>
    match tryKeywordAt kw suf with
    | some nm => some nm
    | none => pickKeyword ks suf

/-- Lazy scan of `.*?(?:k1|...|kn)\s+([^\s\(\{:]+)` anchored by `re.match`:
the earliest position wins, keyword list order breaks ties at a position. -/
def nameExtractAux (kws : List (List Char)) : List Char → Option (List Char)
  | [] => none
  | c :: rest =>
    match pickKeyword kws (c :: rest) with
    | some nm => some nm
    | none => nameExtractAux kws rest

/-- Name extraction of src/summary.py:98-100,165-167: the regex the pattern
literal `.*??(?:KWS)\s+([^\s\(\{:]+)` spells out.  (Constructing this regex in
the source actually raises before `re` ever sees it — see `analyzerInit`; this
definition embeds the match semantics the surrounding code relies on.) -/
def nameExtract (kws : List String) (s : String) : Option String :=
  (nameExtractAux (kws.map (fun k => k.data)) s.data).map (fun l => ⟨l⟩)

/-- Model of the declaration-start test: some keyword followed by a space is a prefix of the stripped line
(src/summary.py:163). -/
def isDeclStart (kws : List String) (line : String) : Bool :=
  kws.any (fun k => ((k ++ " ").data).isPrefixOf (lstripPM line).data)

/-- The dict value `sorry_info` (src/summary.py:176-181,184,187). -/
structure SorryInfo where
  id : String
  file : String
  name : String
  header : String
  line : Nat
deriving DecidableEq, Repr

/-- One element of `affected_sorries` (src/summary.py:196-202). -/
structure AffectedInfo where
  id : String
  file : String
  context : String
  old_line : Nat
  new_line : Nat
deriving DecidableEq, Repr

/-- The mutable fields of `DiffAnalyzer` (src/summary.py:78-93). -/
structure ScanState where
  files_changed : List String
  lines_added : Nat
  lines_removed : Nat
  added_sorries : List String
  removed_sorries : List String
  affected_sorries : List AffectedInfo
  current_file : String
  old_line_num : Nat
  new_line_num : Nat
  current_decl_header : String
  current_decl_name : String
  raw_added : List (String × SorryInfo)
  raw_removed : List (String × SorryInfo)
deriving DecidableEq, Repr

/-- The state set up by `DiffAnalyzer.__init__` (src/summary.py:78-93). -/
def initState : ScanState :=
  ⟨[], 0, 0, [], [], [], "", 0, 0, "", "", [], []⟩

/-- Python dict update `m[k] = v`: replace in place, else append. -/
def insertAssoc (m : List (String × SorryInfo)) (k : String) (v : SorryInfo) :
    List (String × SorryInfo) :=
  if m.any (fun p => p.1 = k) then
    m.map (fun p => if p.1 = k then (k, v) else p)
  else m ++ [(k, v)]

/-- Python set add `self.files_changed.add(f)` (src/summary.py:129). -/
def insertFileSet (l : List String) (f : String) : List String :=
  if l.contains f then l else l ++ [f]

/-- The declaration-header recognition half of `_track_sorries`
(src/summary.py:162-167): the header is always overwritten on a declaration
line, the name only when extraction succeeds. -/
def updateDecl (kws : List String) (s : ScanState) (line : String) : ScanState :=
  if isDeclStart kws line then
    match nameExtract kws (subPM line) with
    | some n =>
      { s with current_decl_header := subPM line, current_decl_name := n }
    | none => { s with current_decl_header := subPM line }
  else s

/-- The stable id built at src/summary.py:175. -/
def markerId (s : ScanState) : String :=
  s.current_decl_name ++ "@" ++ s.current_file

/-- The sorry_info dict built at src/summary.py:176-181, with the line field
passed in (new-line cursor for added lines, old-line cursor for removed). -/
def markerInfo (s : ScanState) (ln : Nat) : SorryInfo :=
  ⟨markerId s, s.current_file, s.current_decl_name,
   pyStrip (splitFirst s.current_decl_header ":="), ln⟩

/-- The marker-recording half of `_track_sorries` (src/summary.py:169-188). -/
def recordMarker (s : ScanState) (line : String) : ScanState :=
  if containsSub line "sorry" && !(s.current_decl_name = "") then
    if (match strFind line "--" with
        | some cpos => decide (cpos < (strFind line "sorry").getD 0)
        | none => false) then s
    else if strStartsWith line "+" then
      { s with raw_added :=
          insertAssoc s.raw_added (markerId s) (markerInfo s s.new_line_num) }
    else if strStartsWith line "-" then
      { s with raw_removed :=
          insertAssoc s.raw_removed (markerId s) (markerInfo s s.old_line_num) }
    else s
  else s

/-- Model of DiffAnalyzer._track_sorries (src/summary.py:161-188). -/
def track_sorries (kws : List String) (s : ScanState) (line : String) : ScanState :=
  recordMarker (updateDecl kws s line) line

/-- Model of DiffAnalyzer._process_line (src/summary.py:145-159): count the line,
track markers, then advance the line cursors. -/
def process_line (kws : List String) (s : ScanState) (line : String) : ScanState :=
  let s1 :=
    if strStartsWith line "+" then { s with lines_added := s.lines_added + 1 }
    else if strStartsWith line "-" then { s with lines_removed := s.lines_removed + 1 }
    else s
  let s2 := track_sorries kws s1 line
  if strStartsWith line "+" then { s2 with new_line_num := s2.new_line_num + 1 }
  else if strStartsWith line "-" then { s2 with old_line_num := s2.old_line_num + 1 }
  else { s2 with old_line_num := s2.old_line_num + 1,
                 new_line_num := s2.new_line_num + 1 }

/-- One iteration of the loop body of `DiffAnalyzer.analyze`
(src/summary.py:104-114), including `_parse_file_header` (125-133) and
`_parse_hunk_header` (135-143). -/
def step_line (kws : List String) (s : ScanState) (line : String) : ScanState :=
  match parseFileHeader line with
  | some f =>
    { s with current_file := f, files_changed := insertFileSet s.files_changed f,
             current_decl_header := "", current_decl_name := "" }
  | none =>
    match parseHunkHeader line with
    | some pr =>
      { s with old_line_num := pr.1, new_line_num := pr.2,
               current_decl_header := "", current_decl_name := "" }
    | none =>
      if strStartsWith line "---" || strStartsWith line "+++" then s
      else if !(strEndsWith s.current_file ".lean") then s
      else process_line kws s line

/-- The whole scan loop of `analyze` (src/summary.py:104-114). -/
def scan (kws : List String) (s : ScanState) (lines : List String) : ScanState :=
  lines.foldl (step_line kws) s

/-- The line field stored in raw_removed under a stable id known to be present. -/
def lookupLine (m : List (String × SorryInfo)) (k : String) : Nat :=
  match m.find? (fun p => p.1 = k) with
  | some p => p.2.line
  | none => 0

/-- Model of DiffAnalyzer._categorize_sorries (src/summary.py:190-208).  Python
iterates the id sets in unspecified set order; the entries here come in raw-map
insertion order, which is immaterial to the claims settled below. -/
def categorize (s : ScanState) : ScanState :=
  let removedKeys := s.raw_removed.map (fun p => p.1)
  let addedKeys := s.raw_added.map (fun p => p.1)
  let affEntries :=
    (s.raw_added.filter (fun p => removedKeys.contains p.1)).map
      (fun p => (⟨p.1, p.2.file, p.2.header, lookupLine s.raw_removed p.1,
        p.2.line⟩ : AffectedInfo))
  let addedOnly := s.raw_added.filter (fun p => !removedKeys.contains p.1)
  let removedOnly := s.raw_removed.filter (fun p => !addedKeys.contains p.1)
  { s with
    affected_sorries := s.affected_sorries ++ affEntries,
    added_sorries := s.added_sorries ++
      addedOnly.map (fun p => "`" ++ p.2.header ++ "` in `" ++ p.2.file ++ "`"),
    removed_sorries := s.removed_sorries ++
      removedOnly.map (fun p => "`" ++ p.2.header ++ "` in `" ++ p.2.file ++ "`") }

/-- The tuple returned by `analyze` (src/summary.py:118-123). -/
structure AnalyzeResult where
  files_changed : Nat
  lines_added : Nat
  lines_removed : Nat
  added_sorries : List String
  removed_sorries : List String
  affected_sorries : List AffectedInfo
deriving DecidableEq, Repr

/-- Read the returned tuple off the final state. -/
def toResult (s : ScanState) : AnalyzeResult :=
  ⟨s.files_changed.length, s.lines_added, s.lines_removed,
   s.added_sorries, s.removed_sorries, s.affected_sorries⟩

/-- One call of `analyze` starting from instance state `s`
(src/summary.py:102-123): scan every line, then categorize.  `analyze` never
resets any accumulator, so a second call on the same instance continues from
the state the first call left behind. -/
def runDiff (kws : List String) (s : ScanState) (diff : String) : ScanState :=
  categorize (scan kws s (splitLines diff))

/-- Model of DiffAnalyzer(kws).analyze(diff) on a fresh instance, as a value. -/
def analyze (kws : List String) (diff : String) : AnalyzeResult :=
  toResult (runDiff kws initState diff)

/-- The scan-only part of a fresh `analyze` run (state before
`_categorize_sorries`), used to talk about `rawAdded`/`rawRemoved`. -/
def scanOnly (kws : List String) (diff : String) : ScanState :=
  scan kws initState (splitLines diff)

/-- The result of `analyzer.analyze(diff); analyzer.analyze(diff)` on one
shared instance. -/
def analyzeTwice (kws : List String) (diff : String) : AnalyzeResult :=
  toResult (runDiff kws (runDiff kws initState diff) diff)

/-- The keyword list built in `main` from the default `INPUT_LEAN_KEYWORDS`
(src/summary.py:315-316). -/
def defaultLeanKeywords : List String :=
  ["def", "abbrev", "example", "theorem", "opaque", "lemma", "instance"]

/-!
Model of the failing constructor step.  `DiffAnalyzer.__init__`
(src/summary.py:97-100) builds the name-extraction pattern with
`str.format` on a template that contains a bare (undoubled) opening brace
inside the character class, so `format` raises `ValueError` before
`re.compile` is ever reached, whatever the keyword list is.  The brace
scanning of `str.format` relevant to this template is modelled below; a
raised `ValueError` is an `Except.error`.
-/

/-- Model of re.escape (src/summary.py:97): every character that is not an
ASCII alphanumeric or underscore is preceded by a backslash. -/
def reEscape (s : String) : String :=
  ⟨s.data.flatMap (fun c => if c.isAlphanum || c = '_' then [c] else ['\\', c])⟩

/-- Scan of a format spec up to the closing brace of its replacement field
(nested fields tracked by depth); `none` when the input ends first. -/
def specScan (depth : Nat) : List Char → Option (List Char)
  | [] => none
  | c :: rest =>
    if c = '\x7d' then
      match depth with
      | 0 => some rest
      | d + 1 => specScan d rest
    else if c = '\x7b' then specScan (depth + 1) rest
    else specScan depth rest

/-- Brace scanning of str.format with a single positional argument:
doubled braces are literals, an empty replacement field substitutes the
argument, a field whose format spec never finds its closing brace raises
(the case this template hits).  Field forms the source never writes
(nonempty names, conversions) are collapsed into an error constant. -/
def pyFormatAux (arg : String) : List Char → String → Bool → Except String String
  | [], acc, _ => Except.ok acc
  | '\x7b' :: '\x7b' :: rest, acc, u => pyFormatAux arg rest (acc ++ "\x7b") u
  | '\x7d' :: '\x7d' :: rest, acc, u => pyFormatAux arg rest (acc ++ "\x7d") u
  | '\x7b' :: '\x7d' :: rest, acc, u =>
    if u then Except.error "replacement index out of range"
    else pyFormatAux arg rest (acc ++ arg) true
  | '\x7b' :: ':' :: rest, acc, u =>
    match hs : specScan 0 rest with
    | some rest2 =>
      if u then Except.error "replacement index out of range"
      else pyFormatAux arg rest2 (acc ++ arg) true
    | none => Except.error "unmatched brace in format spec"
  | '\x7b' :: _, _, _ => Except.error "field form not used by this source"
  | '\x7d' :: _, _, _ => Except.error "single closing brace in format string"
  | c :: rest, acc, u => pyFormatAux arg rest (acc ++ c.toString) u
termination_by l _ _ => l.length
decreasing_by
all_goals simp only [List.length_cons]
all_goals try omega
have hlt : ∀ (d : Nat) (l r : List Char), specScan d l = some r → r.length < l.length := by
  intro d l
  induction l generalizing d with
  | nil => intro r h; simp [specScan] at h
  | cons c cs ih =>
    intro r h
    unfold specScan at h
    split at h
    · split at h
      · cases h; simp
      · exact Nat.lt_trans (ih _ _ h) (by simp)
    · split at h
      · exact Nat.lt_trans (ih _ _ h) (by simp)
      · exact Nat.lt_trans (ih _ _ h) (by simp)
have := hlt 0 rest rest2 hs
omega

/-- Model of template.format(arg). -/
def pyFormatOneArg (template arg : String) : Except String String :=
  pyFormatAux arg template.data "" false

/-- The raw-string template of src/summary.py:99, character for character:
dot star question question open-paren question colon, the brace pair that is
the format placeholder, close-paren, backslash-s plus, open-paren bracket
caret backslash-s backslash-open-paren backslash-open-brace colon
close-bracket plus close-paren. -/
def nameRegexTemplate : String := ".*??(?:\x7b\x7d)\\s+([^\\s\\(\\\x7b:]+)"

/-- Model of the regex-building step of DiffAnalyzer.__init__
(src/summary.py:97-100): join the escaped keywords with a pipe and format
them into the template.  In the source this is the first statement of the
constructor that can fail, and it does fail: the template has a bare opening
brace, so str.format raises ValueError for every keyword list. -/
def analyzerInit (kws : List String) : Except String String :=
  pyFormatOneArg nameRegexTemplate (String.intercalate "|" (kws.map reEscape))

/-- Scenario A input of the spec: one file Foo.lean, three added lines, one
removed line, one added marker line with no matching removal. -/
def scenarioA : String :=
  "diff --git a/Foo.lean b/Foo.lean\n--- a/Foo.lean\n+++ b/Foo.lean\n" ++
  "@@ -1,2 +1,4 @@\n context1\n-old line\n+theorem bar : True := sorry\n" ++
  "+new2\n+new3"

/-- The diff of claim C6: the only changed line carries the marker after
the word by and a trailing line comment that also mentions the marker. -/
def commentDiff : String :=
  "diff --git a/Foo.lean b/Foo.lean\n@@ -1,0 +1,1 @@\n" ++
  "+  theorem foo : P := by sorry -- sorry still needed"

/-- The diff of claim C7: a declaration line with an extractable name,
then a declaration line with no extractable name, then a bare marker line. -/
def unnamedDeclDiff : String :=
  "diff --git a/Foo.lean b/Foo.lean\n@@ -1,0 +1,3 @@\n" ++
  "+theorem good : True := True.intro\n+theorem (\n+sorry"

/-- A diff touching only a non-target file, with two added lines and one
removed line. -/
def nonLeanDiff : String :=
  "diff --git a/readme.md b/readme.md\n@@ -1,1 +1,2 @@\n+hello\n+world\n-bye"

/-- A diff with one added line before the first file header and one added
line inside a target file. -/
def leadingJunkDiff : String :=
  "+x\ndiff --git a/A.lean b/A.lean\n@@ -1,0 +1,1 @@\n+y"

/-- Number of lines that the spec counts as added across ALL files of the
diff: a leading plus, excluding the +++ path-echo lines.  (Second definition
following the words of the spec, for comparison against the code.) -/
def specAddedAll (lines : List String) : Nat :=
  (lines.filter (fun l => strStartsWith l "+" && !strStartsWith l "+++")).length

/-- Number of lines that the spec counts as removed across ALL files. -/
def specRemovedAll (lines : List String) : Nat :=
  (lines.filter (fun l => strStartsWith l "-" && !strStartsWith l "---")).length

/-- Number of distinct file paths named by file-header lines. -/
def specDistinctFiles (lines : List String) : Nat :=
  ((lines.filterMap parseFileHeader).toFinset).card

/-- Added-line count restricted to files whose current path ends in the
target extension, tracking only file headers (amended reading of the spec). -/
def specAddedTarget (f : String) : List String → Nat
  | [] => 0
  | l :: ls =>
    match parseFileHeader l with
    | some f2 => specAddedTarget f2 ls
    | none =>
      (if strStartsWith l "+" && !strStartsWith l "+++" && strEndsWith f ".lean"
       then 1 else 0) + specAddedTarget f ls

/-- Removed-line count restricted to target-extension files. -/
def specRemovedTarget (f : String) : List String → Nat
  | [] => 0
  | l :: ls =>
    match parseFileHeader l with
    | some f2 => specRemovedTarget f2 ls
    | none =>
      (if strStartsWith l "-" && !strStartsWith l "---" && strEndsWith f ".lean"
       then 1 else 0) + specRemovedTarget f ls

/-- Key list of an association map. -/
def keysOf (m : List (String × SorryInfo)) : List String :=
  m.map (fun p => p.1)

/-- Lookup in an association map (first matching key). -/
def lookupA (m : List (String × SorryInfo)) (k : String) : Option SorryInfo :=
  (m.find? (fun p => p.1 = k)).map (fun p => p.2)

/-- Replay a list of recorded insertions on top of a base map. -/
def mergeInto (base : List (String × SorryInfo)) (tr : List (String × SorryInfo)) :
    List (String × SorryInfo) :=
  tr.foldl (fun b p => insertAssoc b p.1 p.2) base

/-- Last value recorded for a key in an insertion trace. -/
def traceLast (tr : List (String × SorryInfo)) (k : String) : Option SorryInfo :=
  (tr.reverse.find? (fun p => p.1 = k)).map (fun p => p.2)

/-- Decimal digit characters. -/
def digitChar : Nat → Char
  | 0 => '0'
  | 1 => '1'
  | 2 => '2'
  | 3 => '3'
  | 4 => '4'
  | 5 => '5'
  | 6 => '6'
  | 7 => '7'
  | 8 => '8'
  | _ => '9'

/-- Decimal digit expansion of a natural number, most significant first. -/
def natChars (n : Nat) : List Char :=
  if h : n < 10 then [digitChar n]
  else natChars (n / 10) ++ [digitChar (n % 10)]
decreasing_by exact Nat.div_lt_self (by omega) (by omega)

/-- Decimal rendering of a natural number. -/
def natStr (n : Nat) : String := ⟨natChars n⟩

/-- Hunk header removing one old line at `a`. -/
def hunk1Line (a : Nat) : String := "@@ -" ++ natStr a ++ ",1 +1,0 @@"

/-- Hunk header adding one new line at `b`. -/
def hunk2Line (b : Nat) : String := "@@ -1,0 +" ++ natStr b ++ ",1 @@"

/-- The removed-side declaration line of the pure-move diff. -/
def declRemovedLine : String := "-theorem foo : True := sorry"

/-- The added-side declaration line of the pure-move diff. -/
def declAddedLine : String := "+theorem foo : True := sorry"

/-- The file-header line of the pure-move diff. -/
def fooHeaderLine : String := "diff --git a/Foo.lean b/Foo.lean"

/-- A pure-move diff: the marker-bearing declaration foo is removed from
Foo.lean at old line `a` and re-added, identically, at new line `b`. -/
def moveDiff (a b : Nat) : String :=
  fooHeaderLine ++ "\n" ++ (hunk1Line a ++ "\n" ++ (declRemovedLine ++ "\n" ++
    (hunk2Line b ++ "\n" ++ declAddedLine)))

/-- The single affected entry that a pure move from `a` to `b` produces. -/
def moveAffected (a b : Nat) : AffectedInfo :=
  ⟨"foo@Foo.lean", "Foo.lean", "theorem foo : True", a, b⟩

/-- A state with an active declaration name, for the C5 witness. -/
def c5State : ScanState :=
  { initState with current_decl_name := "x", current_file := "Foo.lean" }

/-- The line of the C5 witness: the comment opener at index 32 precedes the
first marker occurrence at index 39. -/
def c5Line : String := "+theorem x : True := by trivial -- one sorry left"

/-- A state remembering the previously extracted name, for the C7 witness. -/
def c7State : ScanState := { initState with current_decl_name := "good" }

/-- The set of stable ids in rawAdded at the end of a fresh scan. -/
def addedKeySet (kws : List String) (diff : String) : Finset String :=
  (keysOf (scanOnly kws diff).raw_added).toFinset

/-- The set of stable ids in rawRemoved at the end of a fresh scan. -/
def removedKeySet (kws : List String) (diff : String) : Finset String :=
  (keysOf (scanOnly kws diff).raw_removed).toFinset

/-- The declaration-context control fields of the scan state: the only
state components the per-line raw-map insertions and cursor updates read. -/
structure CtrlState where
  file : String
  oldn : Nat
  newn : Nat
  dheader : String
  dname : String
deriving DecidableEq, Repr

/-- Projection of the scan state onto its control fields. -/
def ctrlOf (s : ScanState) : CtrlState :=
  ⟨s.current_file, s.old_line_num, s.new_line_num,
   s.current_decl_header, s.current_decl_name⟩

/-- The effect of the declaration-header half of track_sorries on the
control fields. -/
def ctrlUpdateDecl (kws : List String) (c : CtrlState) (line : String) :
    CtrlState :=
  if isDeclStart kws line then
    match nameExtract kws (subPM line) with
    | some nm => { c with dheader := subPM line, dname := nm }
    | none => { c with dheader := subPM line }
  else c

/-- The rawAdded insertion a single recordMarker call performs, as a
function of the control fields. -/
def ctrlEmitAdded (c : CtrlState) (line : String) :
    List (String × SorryInfo) :=
  if containsSub line "sorry" && !(c.dname = "") then
    if (match strFind line "--" with
        | some cpos => decide (cpos < (strFind line "sorry").getD 0)
        | none => false) then []
    else if strStartsWith line "+" then
      [(c.dname ++ "@" ++ c.file,
        ⟨c.dname ++ "@" ++ c.file, c.file, c.dname,
         pyStrip (splitFirst c.dheader ":="), c.newn⟩)]
    else []
  else []

/-- The rawRemoved insertion a single recordMarker call performs. -/
def ctrlEmitRemoved (c : CtrlState) (line : String) :
    List (String × SorryInfo) :=
  if containsSub line "sorry" && !(c.dname = "") then
    if (match strFind line "--" with
        | some cpos => decide (cpos < (strFind line "sorry").getD 0)
        | none => false) then []
    else if strStartsWith line "+" then []
    else if strStartsWith line "-" then
      [(c.dname ++ "@" ++ c.file,
        ⟨c.dname ++ "@" ++ c.file, c.file, c.dname,
         pyStrip (splitFirst c.dheader ":="), c.oldn⟩)]
    else []
  else []

/-- The effect of _process_line on the control fields. -/
def ctrlContent (kws : List String) (c : CtrlState) (line : String) :
    CtrlState :=
  if strStartsWith line "+" then
    { ctrlUpdateDecl kws c line with
        newn := (ctrlUpdateDecl kws c line).newn + 1 }
  else if strStartsWith line "-" then
    { ctrlUpdateDecl kws c line with
        oldn := (ctrlUpdateDecl kws c line).oldn + 1 }
  else
    { ctrlUpdateDecl kws c line with
        oldn := (ctrlUpdateDecl kws c line).oldn + 1,
        newn := (ctrlUpdateDecl kws c line).newn + 1 }

/-- One loop iteration of analyze projected onto the control fields. -/
def ctrlStep (kws : List String) (c : CtrlState) (line : String) : CtrlState :=
  match parseFileHeader line with
  | some f => { c with file := f, dheader := "", dname := "" }
  | none =>
    match parseHunkHeader line with
    | some pr => { c with oldn := pr.1, newn := pr.2, dheader := "", dname := "" }
    | none =>
      if strStartsWith line "---" || strStartsWith line "+++" then c
      else if !(strEndsWith c.file ".lean") then c
      else ctrlContent kws c line

/-- The rawAdded insertions one loop iteration of analyze performs. -/
def stepEmitAdded (kws : List String) (c : CtrlState) (line : String) :
    List (String × SorryInfo) :=
  match parseFileHeader line with
  | some _ => []
  | none =>
    match parseHunkHeader line with
    | some _ => []
    | none =>
      if strStartsWith line "---" || strStartsWith line "+++" then []
      else if !(strEndsWith c.file ".lean") then []
      else ctrlEmitAdded (ctrlUpdateDecl kws c line) line

/-- The rawRemoved insertions one loop iteration of analyze performs. -/
def stepEmitRemoved (kws : List String) (c : CtrlState) (line : String) :
    List (String × SorryInfo) :=
  match parseFileHeader line with
  | some _ => []
  | none =>
    match parseHunkHeader line with
    | some _ => []
    | none =>
      if strStartsWith line "---" || strStartsWith line "+++" then []
      else if !(strEndsWith c.file ".lean") then []
      else ctrlEmitRemoved (ctrlUpdateDecl kws c line) line

/-- The full insertion trace of a scan into rawAdded. -/
def traceAdded (kws : List String) (c : CtrlState) :
    List String → List (String × SorryInfo)
  | [] => []
  | l :: ls => stepEmitAdded kws c l ++ traceAdded kws (ctrlStep kws c l) ls

/-- The full insertion trace of a scan into rawRemoved. -/
def traceRemoved (kws : List String) (c : CtrlState) :
    List String → List (String × SorryInfo)
  | [] => []
  | l :: ls => stepEmitRemoved kws c l ++ traceRemoved kws (ctrlStep kws c l) ls

/-- The added-markers descriptors _categorize_sorries derives from the raw
maps (src/summary.py:204-205). -/
def addedOut (ra rr : List (String × SorryInfo)) : List String :=
  (ra.filter (fun p => !(rr.map (fun q => q.1)).contains p.1)).map
    (fun p => "`" ++ p.2.header ++ "` in `" ++ p.2.file ++ "`")

/-- The removed-markers descriptors _categorize_sorries derives from the raw
maps (src/summary.py:206-207). -/
def removedOut (ra rr : List (String × SorryInfo)) : List String :=
  (rr.filter (fun p => !(ra.map (fun q => q.1)).contains p.1)).map
    (fun p => "`" ++ p.2.header ++ "` in `" ++ p.2.file ++ "`")

/-- The affected entries _categorize_sorries derives from the raw maps
(src/summary.py:194-202). -/
def affectedOut (ra rr : List (String × SorryInfo)) : List AffectedInfo :=
  (ra.filter (fun p => (rr.map (fun q => q.1)).contains p.1)).map
    (fun p => (⟨p.1, p.2.file, p.2.header, lookupLine rr p.1,
      p.2.line⟩ : AffectedInfo))

/-- A minimal diff whose first line is a file header immediately followed by
a hunk header, for the repeated-analyze witness. -/
def doubleDiff : String :=
  "diff --git a/A.lean b/A.lean\n@@ -1,0 +1,1 @@\n+theorem t : True := sorry"

theorem updateDecl_raw_added (kws : List String) (s : ScanState) (line : String) :
    (updateDecl kws s line).raw_added = s.raw_added := by
  unfold updateDecl
  split
  · split <;> rfl
  · rfl

theorem updateDecl_raw_removed (kws : List String) (s : ScanState) (line : String) :
    (updateDecl kws s line).raw_removed = s.raw_removed := by
  unfold updateDecl
  split
  · split <;> rfl
  · rfl

/-- Claim C1: the spec promises that building the analyzer and running
analyze never raises, but the constructor itself raises for EVERY keyword
list: the str.format call that assembles the name-extraction pattern
(src/summary.py:97-100) hits the bare opening brace of the template and
raises ValueError before any diff is read (and the pattern text, had it been
formatted, is itself rejected by re as a multiple repeat).  This theorem
evaluates the modelled constructor step at every input. -/
theorem C1_constructor_always_raises (kws : List String) :
    analyzerInit kws = Except.error "unmatched brace in format spec" := by
  simp [analyzerInit, pyFormatOneArg, pyFormatAux, specScan, nameRegexTemplate]

/-- Claim C9: on the Scenario A diff the analyzer reports one file changed,
three added lines, one removed line, the single added-marker descriptor with
the header truncated at the first definition operator, and empty removed and
affected lists. -/
theorem C9_scenario_a :
    analyze defaultLeanKeywords scenarioA =
      ⟨1, 3, 1, ["`theorem bar : True` in `Foo.lean`"], [], []⟩ := by
  decide

/-- Claim C6 counterexample: on the diff whose only changed line is
the line plus-theorem-foo with a live marker before the trailing comment,
rawAdded is NOT empty and the added-markers list is NOT empty, contrary to
the claim: the first occurrence of the marker token precedes the comment
opener, so the comment guard does not fire. -/
theorem C6_counterexample :
    ¬((scanOnly defaultLeanKeywords commentDiff).raw_added = [] ∧
      (analyze defaultLeanKeywords commentDiff).added_sorries = []) := by
  decide

/-- Claim C6 amended: processing that diff registers exactly one marker
occurrence, for foo at new line 1, and reports it as added; suppression
would require the comment opener to appear before the FIRST marker token
occurrence in the line. -/
theorem C6_marker_registered :
    analyze defaultLeanKeywords commentDiff =
      ⟨1, 1, 0, ["`theorem foo : P` in `Foo.lean`"], [], []⟩ := by
  decide

/-- Claim C7 counterexample: after a declaration line with no extractable
name (plus-theorem-open-paren), the current declaration name is NOT cleared
— it still holds the previous name good — and the following bare marker
line IS recorded (attributed to good under the new header), contrary to the
claim. -/
theorem C7_counterexample :
    (scanOnly defaultLeanKeywords unnamedDeclDiff).current_decl_name = "good" ∧
    (analyze defaultLeanKeywords unnamedDeclDiff).added_sorries =
      ["`theorem (` in `Foo.lean`"] := by
  decide

/-- Claim C7 amended: when a line opens a new declaration but no name is
extractable, only the header is overwritten; the declaration NAME retains
its previous value (src/summary.py:164-167 has no else branch), so later
marker lines are attributed to the previous name under the new header. -/
theorem C7_name_retained (kws : List String) (s : ScanState) (line : String)
    (h1 : isDeclStart kws line = true)
    (h2 : nameExtract kws (subPM line) = none) :
    updateDecl kws s line = { s with current_decl_header := subPM line } := by
  unfold updateDecl
  rw [if_pos h1, h2]

/-- Witness for C7_name_retained at a concrete state and line. -/
theorem C7_name_retained_witness :
    updateDecl ["theorem"] c7State "+theorem (" =
      { c7State with current_decl_header := subPM "+theorem (" } :=
  C7_name_retained ["theorem"] c7State "+theorem (" (by decide) (by decide)

/-- Claim C3 counterexample: a diff touching only readme.md with two added
and one removed line yields zero counted added and removed lines, not the
across-all-files counts the claim states. -/
theorem C3_counterexample :
    (analyze defaultLeanKeywords nonLeanDiff).lines_added = 0 ∧
    (analyze defaultLeanKeywords nonLeanDiff).lines_removed = 0 ∧
    specAddedAll (splitLines nonLeanDiff) = 2 ∧
    specRemovedAll (splitLines nonLeanDiff) = 1 := by
  decide

/-- Claim C10 counterexample: on a diff with one added line before the first
file header and one added line in A.lean, a single fresh run counts one
added line (so the claim premise of an added target-file line holds), but
the second run on the same instance reports three, not two: the leading line
is reprocessed under the stale file path left by the first run. -/
theorem C10_counterexample :
    (analyze defaultLeanKeywords leadingJunkDiff).lines_added = 1 ∧
    (analyzeTwice defaultLeanKeywords leadingJunkDiff).lines_added = 3 := by
  decide

/-- Claim C5: on any line in which a comment opener occurs at an earlier
position than the first marker token, recordMarker leaves both raw maps
unchanged, whatever declaration name is active. -/
theorem C5_comment_guard (kws : List String) (s : ScanState) (line : String)
    (c sp : Nat) (hname : ¬s.current_decl_name = "")
    (hc : strFind line "--" = some c)
    (hsp : strFind line "sorry" = some sp)
    (hlt : c < sp) :
    (track_sorries kws s line).raw_added = s.raw_added ∧
    (track_sorries kws s line).raw_removed = s.raw_removed := by
  have hA := updateDecl_raw_added kws s line
  have hR := updateDecl_raw_removed kws s line
  have hres : track_sorries kws s line = updateDecl kws s line := by
    unfold track_sorries recordMarker
    rw [hc, hsp]
    simp [hlt]
  rw [hres]
  exact ⟨hA, hR⟩

/-- Witness for C5_comment_guard at a concrete state and line. -/
theorem C5_comment_guard_witness :
    (track_sorries defaultLeanKeywords c5State c5Line).raw_added =
      c5State.raw_added ∧
    (track_sorries defaultLeanKeywords c5State c5Line).raw_removed =
      c5State.raw_removed :=
  C5_comment_guard defaultLeanKeywords c5State c5Line 32 39
    (by decide) (by decide) (by decide) (by decide)

/-- Claim C8: every file-header line and every hunk-header line clears the
declaration context, and a marker on a changed line is ignored whenever the
declaration name in effect at recording time is empty, so nothing recorded
after a hunk header can point at a declaration seen only before it. -/
theorem C8_context_reset (kws : List String) (s : ScanState) (line : String)
    (s2 : ScanState) (line2 : String)
    (hhdr : (parseFileHeader line).isSome ∨ (parseHunkHeader line).isSome)
    (hname : (updateDecl kws s2 line2).current_decl_name = "") :
    ((step_line kws s line).current_decl_header = "" ∧
     (step_line kws s line).current_decl_name = "") ∧
    (track_sorries kws s2 line2).raw_added = s2.raw_added ∧
    (track_sorries kws s2 line2).raw_removed = s2.raw_removed := by
  constructor
  · unfold step_line
    match hf : parseFileHeader line with
    | some f => exact ⟨rfl, rfl⟩
    | none =>
      match hh : parseHunkHeader line with
      | some pr => exact ⟨rfl, rfl⟩
      | none =>
        rw [hf] at hhdr
        rw [hh] at hhdr
        simp at hhdr
  · have hA := updateDecl_raw_added kws s2 line2
    have hR := updateDecl_raw_removed kws s2 line2
    have hres : track_sorries kws s2 line2 = updateDecl kws s2 line2 := by
      unfold track_sorries recordMarker
      rw [hname]
      simp
    rw [hres]
    exact ⟨hA, hR⟩

/-- Witness for C8_context_reset at a concrete hunk header and marker line. -/
theorem C8_context_reset_witness :
    ((step_line defaultLeanKeywords initState "@@ -1,2 +3,4 @@").current_decl_header = "" ∧
     (step_line defaultLeanKeywords initState "@@ -1,2 +3,4 @@").current_decl_name = "") ∧
    (track_sorries defaultLeanKeywords initState "+sorry here").raw_added =
      initState.raw_added ∧
    (track_sorries defaultLeanKeywords initState "+sorry here").raw_removed =
      initState.raw_removed :=
  C8_context_reset defaultLeanKeywords initState "@@ -1,2 +3,4 @@"
    initState "+sorry here" (Or.inr (by decide)) (by decide)

theorem any_key_eq_mem (m : List (String × SorryInfo)) (k : String) :
    (m.any (fun p => p.1 = k)) = true ↔ k ∈ keysOf m := by
  simp [keysOf, List.any_eq_true]

theorem keysOf_insertAssoc (m : List (String × SorryInfo)) (k : String)
    (v : SorryInfo) :
    keysOf (insertAssoc m k v) =
      if k ∈ keysOf m then keysOf m else keysOf m ++ [k] := by
  unfold insertAssoc
  by_cases h : k ∈ keysOf m
  · rw [if_pos ((any_key_eq_mem m k).2 h), if_pos h]
    unfold keysOf
    rw [List.map_map]
    refine List.map_congr_left ?_
    intro p _
    by_cases hp : p.1 = k
    · simp [hp]
    · simp [hp]
  · rw [if_neg (by rw [any_key_eq_mem]; exact h), if_neg h]
    simp [keysOf]

theorem keysOf_insertAssoc_nodup (m : List (String × SorryInfo)) (k : String)
    (v : SorryInfo) (h : (keysOf m).Nodup) :
    (keysOf (insertAssoc m k v)).Nodup := by
  rw [keysOf_insertAssoc]
  by_cases hk : k ∈ keysOf m
  · rw [if_pos hk]; exact h
  · rw [if_neg hk]
    refine List.Nodup.append h (List.nodup_singleton k) ?_
    intro x hx hmem
    simp at hmem
    subst hmem
    exact hk hx

theorem recordMarker_raw_nodup (s : ScanState) (line : String)
    (hA : (keysOf s.raw_added).Nodup) (hR : (keysOf s.raw_removed).Nodup) :
    (keysOf (recordMarker s line).raw_added).Nodup ∧
    (keysOf (recordMarker s line).raw_removed).Nodup := by
  unfold recordMarker
  split
  · split
    · exact ⟨hA, hR⟩
    · split
      · exact ⟨keysOf_insertAssoc_nodup _ _ _ hA, hR⟩
      · split
        · exact ⟨hA, keysOf_insertAssoc_nodup _ _ _ hR⟩
        · exact ⟨hA, hR⟩
  · exact ⟨hA, hR⟩

theorem track_sorries_raw_nodup (kws : List String) (s : ScanState)
    (line : String)
    (hA : (keysOf s.raw_added).Nodup) (hR : (keysOf s.raw_removed).Nodup) :
    (keysOf (track_sorries kws s line).raw_added).Nodup ∧
    (keysOf (track_sorries kws s line).raw_removed).Nodup := by
  unfold track_sorries
  refine recordMarker_raw_nodup _ _ ?_ ?_
  · rw [updateDecl_raw_added]; exact hA
  · rw [updateDecl_raw_removed]; exact hR

theorem process_line_raw (kws : List String) (s : ScanState) (line : String) :
    (process_line kws s line).raw_added =
      (track_sorries kws
        (if strStartsWith line "+" then { s with lines_added := s.lines_added + 1 }
         else if strStartsWith line "-" then
           { s with lines_removed := s.lines_removed + 1 }
         else s) line).raw_added ∧
    (process_line kws s line).raw_removed =
      (track_sorries kws
        (if strStartsWith line "+" then { s with lines_added := s.lines_added + 1 }
         else if strStartsWith line "-" then
           { s with lines_removed := s.lines_removed + 1 }
         else s) line).raw_removed := by
  unfold process_line
  split
  · exact ⟨rfl, rfl⟩
  · split
    · exact ⟨rfl, rfl⟩
    · exact ⟨rfl, rfl⟩

theorem step_line_raw_nodup (kws : List String) (s : ScanState) (line : String)
    (hA : (keysOf s.raw_added).Nodup) (hR : (keysOf s.raw_removed).Nodup) :
    (keysOf (step_line kws s line).raw_added).Nodup ∧
    (keysOf (step_line kws s line).raw_removed).Nodup := by
  unfold step_line
  split
  · exact ⟨hA, hR⟩
  · split
    · exact ⟨hA, hR⟩
    · split
      · exact ⟨hA, hR⟩
      · split
        · exact ⟨hA, hR⟩
        · have hp := process_line_raw kws s line
          rw [hp.1, hp.2]
          refine track_sorries_raw_nodup kws _ line ?_ ?_
          · split
            · exact hA
            · split
              · exact hA
              · exact hA
          · split
            · exact hR
            · split
              · exact hR
              · exact hR

theorem scan_raw_nodup (kws : List String) :
    ∀ (lines : List String) (s : ScanState),
      (keysOf s.raw_added).Nodup → (keysOf s.raw_removed).Nodup →
      (keysOf (scan kws s lines).raw_added).Nodup ∧
      (keysOf (scan kws s lines).raw_removed).Nodup := by
  intro lines
  induction lines with
  | nil => intro s hA hR; exact ⟨hA, hR⟩
  | cons l ls ih =>
    intro s hA hR
    have hstep := step_line_raw_nodup kws s l hA hR
    exact ih (step_line kws s l) hstep.1 hstep.2

theorem recordMarker_outputs (s : ScanState) (line : String) :
    (recordMarker s line).added_sorries = s.added_sorries ∧
    (recordMarker s line).removed_sorries = s.removed_sorries ∧
    (recordMarker s line).affected_sorries = s.affected_sorries := by
  unfold recordMarker
  split
  · split
    · exact ⟨rfl, rfl, rfl⟩
    · split
      · exact ⟨rfl, rfl, rfl⟩
      · split
        · exact ⟨rfl, rfl, rfl⟩
        · exact ⟨rfl, rfl, rfl⟩
  · exact ⟨rfl, rfl, rfl⟩

theorem updateDecl_outputs (kws : List String) (s : ScanState) (line : String) :
    (updateDecl kws s line).added_sorries = s.added_sorries ∧
    (updateDecl kws s line).removed_sorries = s.removed_sorries ∧
    (updateDecl kws s line).affected_sorries = s.affected_sorries := by
  unfold updateDecl
  split
  · split <;> exact ⟨rfl, rfl, rfl⟩
  · exact ⟨rfl, rfl, rfl⟩

theorem track_sorries_outputs (kws : List String) (s : ScanState)
    (line : String) :
    (track_sorries kws s line).added_sorries = s.added_sorries ∧
    (track_sorries kws s line).removed_sorries = s.removed_sorries ∧
    (track_sorries kws s line).affected_sorries = s.affected_sorries := by
  unfold track_sorries
  have h1 := recordMarker_outputs (updateDecl kws s line) line
  have h2 := updateDecl_outputs kws s line
  exact ⟨h1.1.trans h2.1, h1.2.1.trans h2.2.1, h1.2.2.trans h2.2.2⟩

theorem process_line_outputs (kws : List String) (s : ScanState)
    (line : String) :
    (process_line kws s line).added_sorries = s.added_sorries ∧
    (process_line kws s line).removed_sorries = s.removed_sorries ∧
    (process_line kws s line).affected_sorries = s.affected_sorries := by
  unfold process_line
  split
  · have h := track_sorries_outputs kws
      { s with lines_added := s.lines_added + 1 } line
    exact ⟨h.1, h.2.1, h.2.2⟩
  · split
    · have h := track_sorries_outputs kws
        { s with lines_removed := s.lines_removed + 1 } line
      exact ⟨h.1, h.2.1, h.2.2⟩
    · have h := track_sorries_outputs kws s line
      exact ⟨h.1, h.2.1, h.2.2⟩

theorem step_line_outputs (kws : List String) (s : ScanState) (line : String) :
    (step_line kws s line).added_sorries = s.added_sorries ∧
    (step_line kws s line).removed_sorries = s.removed_sorries ∧
    (step_line kws s line).affected_sorries = s.affected_sorries := by
  unfold step_line
  split
  · exact ⟨rfl, rfl, rfl⟩
  · split
    · exact ⟨rfl, rfl, rfl⟩
    · split
      · exact ⟨rfl, rfl, rfl⟩
      · split
        · exact ⟨rfl, rfl, rfl⟩
        · exact process_line_outputs kws s line

theorem scan_outputs (kws : List String) :
    ∀ (lines : List String) (s : ScanState),
      (scan kws s lines).added_sorries = s.added_sorries ∧
      (scan kws s lines).removed_sorries = s.removed_sorries ∧
      (scan kws s lines).affected_sorries = s.affected_sorries := by
  intro lines
  induction lines with
  | nil => intro s; exact ⟨rfl, rfl, rfl⟩
  | cons l ls ih =>
    intro s
    have h1 := ih (step_line kws s l)
    have h2 := step_line_outputs kws s l
    exact ⟨h1.1.trans h2.1, h1.2.1.trans h2.2.1, h1.2.2.trans h2.2.2⟩

theorem map_fst_filter (q : String → Bool) (m : List (String × SorryInfo)) :
    keysOf (m.filter (fun p => q p.1)) = (keysOf m).filter q := by
  induction m with
  | nil => rfl
  | cons p ps ih =>
    unfold keysOf at ih ⊢
    by_cases h : q p.1
    · simp [List.filter_cons, h, ih]
    · simp [List.filter_cons, h, ih]

theorem initState_keys_nodup :
    (keysOf initState.raw_added).Nodup ∧ (keysOf initState.raw_removed).Nodup := by
  constructor <;> exact List.nodup_nil

/-- Claim C2: after analyze, the added-only, removed-only and affected stable
id sets are pairwise disjoint, their union is the union of the rawAdded and
rawRemoved key sets, the affected output carries exactly the intersection
ids, and the added and removed output lists have exactly one entry per
added-only and removed-only id. -/
theorem C2_partition (kws : List String) (diff : String) :
    ((addedKeySet kws diff \ removedKeySet kws diff) ∩
      (removedKeySet kws diff \ addedKeySet kws diff) = ∅) ∧
    ((addedKeySet kws diff \ removedKeySet kws diff) ∩
      (addedKeySet kws diff ∩ removedKeySet kws diff) = ∅) ∧
    ((removedKeySet kws diff \ addedKeySet kws diff) ∩
      (addedKeySet kws diff ∩ removedKeySet kws diff) = ∅) ∧
    ((addedKeySet kws diff \ removedKeySet kws diff) ∪
      (removedKeySet kws diff \ addedKeySet kws diff) ∪
      (addedKeySet kws diff ∩ removedKeySet kws diff) =
      addedKeySet kws diff ∪ removedKeySet kws diff) ∧
    (((analyze kws diff).affected_sorries.map (fun a => a.id)).toFinset =
      addedKeySet kws diff ∩ removedKeySet kws diff) ∧
    ((analyze kws diff).added_sorries.length =
      (addedKeySet kws diff \ removedKeySet kws diff).card) ∧
    ((analyze kws diff).removed_sorries.length =
      (removedKeySet kws diff \ addedKeySet kws diff).card) := by
  have houts := scan_outputs kws (splitLines diff) initState
  have hnd := scan_raw_nodup kws (splitLines diff) initState
    initState_keys_nodup.1 initState_keys_nodup.2
  have h0A : (scanOnly kws diff).added_sorries = [] := houts.1
  have h0R : (scanOnly kws diff).removed_sorries = [] := houts.2.1
  have h0F : (scanOnly kws diff).affected_sorries = [] := houts.2.2
  refine ⟨?_, ?_, ?_, ?_, ?_, ?_, ?_⟩
  · ext x
    simp only [Finset.mem_inter, Finset.mem_sdiff, Finset.not_mem_empty,
      iff_false]
    tauto
  · ext x
    simp only [Finset.mem_inter, Finset.mem_sdiff, Finset.not_mem_empty,
      iff_false]
    tauto
  · ext x
    simp only [Finset.mem_inter, Finset.mem_sdiff, Finset.not_mem_empty,
      iff_false]
    tauto
  · ext x
    simp only [Finset.mem_union, Finset.mem_inter, Finset.mem_sdiff]
    tauto
  · have hres : (analyze kws diff).affected_sorries =
        ((scanOnly kws diff).raw_added.filter
          (fun p => (keysOf (scanOnly kws diff).raw_removed).contains p.1)).map
          (fun p => (⟨p.1, p.2.file, p.2.header,
            lookupLine (scanOnly kws diff).raw_removed p.1,
            p.2.line⟩ : AffectedInfo)) := by
      show ((scanOnly kws diff).affected_sorries ++ _) = _
      rw [h0F]
      rfl
    rw [hres, List.map_map]
    have hmm : ((fun a => AffectedInfo.id a) ∘
        (fun p : String × SorryInfo => (⟨p.1, p.2.file, p.2.header,
          lookupLine (scanOnly kws diff).raw_removed p.1,
          p.2.line⟩ : AffectedInfo))) =
        (fun p : String × SorryInfo => p.1) := rfl
    rw [hmm]
    have hk := map_fst_filter
      (fun k => (keysOf (scanOnly kws diff).raw_removed).contains k)
      (scanOnly kws diff).raw_added
    show (keysOf ((scanOnly kws diff).raw_added.filter
      (fun p => (keysOf (scanOnly kws diff).raw_removed).contains p.1))).toFinset = _
    rw [hk]
    ext x
    simp only [List.mem_toFinset, List.mem_filter, addedKeySet, removedKeySet,
      Finset.mem_inter, List.contains, List.elem_iff]
  · have hres : (analyze kws diff).added_sorries =
        ((scanOnly kws diff).raw_added.filter
          (fun p => !(keysOf (scanOnly kws diff).raw_removed).contains p.1)).map
          (fun p => "`" ++ p.2.header ++ "` in `" ++ p.2.file ++ "`") := by
      show ((scanOnly kws diff).added_sorries ++ _) = _
      rw [h0A]
      rfl
    rw [hres, List.length_map]
    have hk := map_fst_filter
      (fun k => !(keysOf (scanOnly kws diff).raw_removed).contains k)
      (scanOnly kws diff).raw_added
    have hlen : ((scanOnly kws diff).raw_added.filter
        (fun p => !(keysOf (scanOnly kws diff).raw_removed).contains p.1)).length
        = ((keysOf (scanOnly kws diff).raw_added).filter
          (fun k => !(keysOf (scanOnly kws diff).raw_removed).contains k)).length := by
      rw [← hk]
      exact (List.length_map _ _).symm
    rw [hlen]
    have hfin : ((keysOf (scanOnly kws diff).raw_added).filter
        (fun k => !(keysOf (scanOnly kws diff).raw_removed).contains k)).toFinset
        = addedKeySet kws diff \ removedKeySet kws diff := by
      ext x
      simp only [List.mem_toFinset, List.mem_filter, addedKeySet, removedKeySet,
        Finset.mem_sdiff, List.contains, List.elem_iff, Bool.not_eq_true]
      constructor
      · rintro ⟨h1, h2⟩
        refine ⟨h1, ?_⟩
        intro hmem
        rw [(List.elem_iff).2 hmem] at h2
        cases h2
      · rintro ⟨h1, h2⟩
        refine ⟨h1, ?_⟩
        cases he : List.elem x (keysOf (scanOnly kws diff).raw_removed) with
        | true => exact absurd ((List.elem_iff).1 he) h2
        | false => rfl
    rw [← hfin]
    exact (List.toFinset_card_of_nodup
      (List.Nodup.filter _ hnd.1)).symm
  · have hres : (analyze kws diff).removed_sorries =
        ((scanOnly kws diff).raw_removed.filter
          (fun p => !(keysOf (scanOnly kws diff).raw_added).contains p.1)).map
          (fun p => "`" ++ p.2.header ++ "` in `" ++ p.2.file ++ "`") := by
      show ((scanOnly kws diff).removed_sorries ++ _) = _
      rw [h0R]
      rfl
    rw [hres, List.length_map]
    have hk := map_fst_filter
      (fun k => !(keysOf (scanOnly kws diff).raw_added).contains k)
      (scanOnly kws diff).raw_removed
    have hlen : ((scanOnly kws diff).raw_removed.filter
        (fun p => !(keysOf (scanOnly kws diff).raw_added).contains p.1)).length
        = ((keysOf (scanOnly kws diff).raw_removed).filter
          (fun k => !(keysOf (scanOnly kws diff).raw_added).contains k)).length := by
      rw [← hk]
      exact (List.length_map _ _).symm
    rw [hlen]
    have hfin : ((keysOf (scanOnly kws diff).raw_removed).filter
        (fun k => !(keysOf (scanOnly kws diff).raw_added).contains k)).toFinset
        = removedKeySet kws diff \ addedKeySet kws diff := by
      ext x
      simp only [List.mem_toFinset, List.mem_filter, addedKeySet, removedKeySet,
        Finset.mem_sdiff, List.contains, List.elem_iff, Bool.not_eq_true]
      constructor
      · rintro ⟨h1, h2⟩
        refine ⟨h1, ?_⟩
        intro hmem
        rw [(List.elem_iff).2 hmem] at h2
        cases h2
      · rintro ⟨h1, h2⟩
        refine ⟨h1, ?_⟩
        cases he : List.elem x (keysOf (scanOnly kws diff).raw_added) with
        | true => exact absurd ((List.elem_iff).1 he) h2
        | false => rfl
    rw [← hfin]
    exact (List.toFinset_card_of_nodup
      (List.Nodup.filter _ hnd.2)).symm

theorem updateDecl_preserves (kws : List String) (s : ScanState) (line : String) :
    (updateDecl kws s line).current_file = s.current_file ∧
    (updateDecl kws s line).lines_added = s.lines_added ∧
    (updateDecl kws s line).lines_removed = s.lines_removed ∧
    (updateDecl kws s line).files_changed = s.files_changed ∧
    (updateDecl kws s line).old_line_num = s.old_line_num ∧
    (updateDecl kws s line).new_line_num = s.new_line_num := by
  unfold updateDecl
  split
  · split <;> exact ⟨rfl, rfl, rfl, rfl, rfl, rfl⟩
  · exact ⟨rfl, rfl, rfl, rfl, rfl, rfl⟩

theorem recordMarker_preserves (s : ScanState) (line : String) :
    (recordMarker s line).current_file = s.current_file ∧
    (recordMarker s line).lines_added = s.lines_added ∧
    (recordMarker s line).lines_removed = s.lines_removed ∧
    (recordMarker s line).files_changed = s.files_changed ∧
    (recordMarker s line).old_line_num = s.old_line_num ∧
    (recordMarker s line).new_line_num = s.new_line_num := by
  unfold recordMarker
  split
  · split
    · exact ⟨rfl, rfl, rfl, rfl, rfl, rfl⟩
    · split
      · exact ⟨rfl, rfl, rfl, rfl, rfl, rfl⟩
      · split
        · exact ⟨rfl, rfl, rfl, rfl, rfl, rfl⟩
        · exact ⟨rfl, rfl, rfl, rfl, rfl, rfl⟩
  · exact ⟨rfl, rfl, rfl, rfl, rfl, rfl⟩

theorem track_sorries_preserves (kws : List String) (s : ScanState)
    (line : String) :
    (track_sorries kws s line).current_file = s.current_file ∧
    (track_sorries kws s line).lines_added = s.lines_added ∧
    (track_sorries kws s line).lines_removed = s.lines_removed ∧
    (track_sorries kws s line).files_changed = s.files_changed ∧
    (track_sorries kws s line).old_line_num = s.old_line_num ∧
    (track_sorries kws s line).new_line_num = s.new_line_num := by
  unfold track_sorries
  have h1 := recordMarker_preserves (updateDecl kws s line) line
  have h2 := updateDecl_preserves kws s line
  exact ⟨h1.1.trans h2.1, h1.2.1.trans h2.2.1, h1.2.2.1.trans h2.2.2.1,
    h1.2.2.2.1.trans h2.2.2.2.1, h1.2.2.2.2.1.trans h2.2.2.2.2.1,
    h1.2.2.2.2.2.trans h2.2.2.2.2.2⟩

theorem process_line_stats (kws : List String) (s : ScanState) (line : String) :
    (process_line kws s line).current_file = s.current_file ∧
    (process_line kws s line).files_changed = s.files_changed ∧
    (process_line kws s line).lines_added =
      s.lines_added + (if strStartsWith line "+" then 1 else 0) ∧
    (process_line kws s line).lines_removed =
      s.lines_removed + (if strStartsWith line "+" then 0
        else if strStartsWith line "-" then 1 else 0) := by
  unfold process_line
  by_cases hp : strStartsWith line "+"
  · simp only [hp, if_true]
    have ht := track_sorries_preserves kws
      { s with lines_added := s.lines_added + 1 } line
    exact ⟨ht.1, ht.2.2.2.1, ht.2.1, ht.2.2.1⟩
  · simp only [hp, if_false, Bool.false_eq_true]
    by_cases hm : strStartsWith line "-"
    · simp only [hm, if_true]
      have ht := track_sorries_preserves kws
        { s with lines_removed := s.lines_removed + 1 } line
      exact ⟨ht.1, ht.2.2.2.1, ht.2.1, ht.2.2.1⟩
    · simp only [hm, if_false, Bool.false_eq_true]
      have ht := track_sorries_preserves kws s line
      exact ⟨ht.1, ht.2.2.2.1, ht.2.1, ht.2.2.1⟩

theorem headIs_of_prefix (s : String) (c : Char) (rest : List Char)
    (hp : (c :: rest).isPrefixOf s.data = true) : ∃ t, s.data = c :: t := by
  cases hl : s.data with
  | nil => rw [hl] at hp; simp [List.isPrefixOf] at hp
  | cons a t =>
    rw [hl] at hp
    simp only [List.isPrefixOf, Bool.and_eq_true, beq_iff_eq] at hp
    exact ⟨t, by rw [hp.1]⟩

theorem strStartsWith_false_of_head (s : String) (c : Char) (t : List Char)
    (hl : s.data = c :: t) (d : Char) (hne : (d == c) = false) :
    strStartsWith s ⟨[d]⟩ = false := by
  show ([d]).isPrefixOf s.data = false
  rw [hl]
  simp [List.isPrefixOf, hne]

theorem fileHeader_starts (line : String) (f : String)
    (h : parseFileHeader line = some f) :
    strStartsWith line "+" = false ∧ strStartsWith line "-" = false := by
  unfold parseFileHeader at h
  by_cases hc : (("diff --git a/".data).isPrefixOf line.data) = true
  · obtain ⟨t, ht⟩ := headIs_of_prefix line 'd' ("iff --git a/".data) hc
    exact ⟨strStartsWith_false_of_head line 'd' t ht '+' (by decide),
      strStartsWith_false_of_head line 'd' t ht '-' (by decide)⟩
  · rw [if_neg hc] at h
    cases h

theorem hunkHeader_starts (line : String) (pr : Nat × Nat)
    (h : parseHunkHeader line = some pr) :
    strStartsWith line "+" = false ∧ strStartsWith line "-" = false := by
  unfold parseHunkHeader at h
  by_cases hc : (("@@ -".data).isPrefixOf line.data) = true
  · obtain ⟨t, ht⟩ := headIs_of_prefix line '@' ("@ -".data) hc
    exact ⟨strStartsWith_false_of_head line '@' t ht '+' (by decide),
      strStartsWith_false_of_head line '@' t ht '-' (by decide)⟩
  · rw [if_neg hc] at h
    cases h

theorem tripleDash_no_plus (line : String)
    (h : strStartsWith line "---" = true) : strStartsWith line "+" = false := by
  obtain ⟨t, ht⟩ := headIs_of_prefix line '-' ("--".data) h
  exact strStartsWith_false_of_head line '-' t ht '+' (by decide)

theorem triplePlus_no_minus (line : String)
    (h : strStartsWith line "+++" = true) : strStartsWith line "-" = false := by
  obtain ⟨t, ht⟩ := headIs_of_prefix line '+' ("++".data) h
  exact strStartsWith_false_of_head line '+' t ht '-' (by decide)

theorem scan_counts (kws : List String) :
    ∀ (lines : List String) (s : ScanState),
      (scan kws s lines).lines_added =
        s.lines_added + specAddedTarget s.current_file lines ∧
      (scan kws s lines).lines_removed =
        s.lines_removed + specRemovedTarget s.current_file lines := by
  intro lines
  induction lines with
  | nil =>
    intro s
    exact ⟨by simp [scan, specAddedTarget], by simp [scan, specRemovedTarget]⟩
  | cons l ls ih =>
    intro s
    have hsc : scan kws s (l :: ls) = scan kws (step_line kws s l) ls := rfl
    rw [hsc]
    cases hf : parseFileHeader l with
    | some f =>
      have hstep : step_line kws s l = { s with current_file := f, files_changed := insertFileSet s.files_changed f, current_decl_header := "", current_decl_name := "" } := by
        unfold step_line
        rw [hf]
      have hih := ih (step_line kws s l)
      rw [hstep] at hih ⊢
      constructor
      · rw [hih.1]
        simp only [specAddedTarget, hf]
      · rw [hih.2]
        simp only [specRemovedTarget, hf]
    | none =>
      cases hh : parseHunkHeader l with
      | some pr =>
        have hstep : step_line kws s l = { s with old_line_num := pr.1, new_line_num := pr.2, current_decl_header := "", current_decl_name := "" } := by
          unfold step_line
          rw [hf, hh]
        have hih := ih (step_line kws s l)
        rw [hstep] at hih ⊢
        have hpm := hunkHeader_starts l pr hh
        constructor
        · rw [hih.1]
          simp only [specAddedTarget, hf, hpm.1]
          simp
        · rw [hih.2]
          simp only [specRemovedTarget, hf, hpm.2]
          simp
      | none =>
        by_cases hskip : (strStartsWith l "---" || strStartsWith l "+++") = true
        · have hstep : step_line kws s l = s := by
            unfold step_line
            rw [hf, hh, if_pos hskip]
          rw [hstep]
          have hih := ih s
          have hor : strStartsWith l "---" = true ∨ strStartsWith l "+++" = true := by
            simpa using hskip
          cases hor with
          | inl h3 =>
            constructor
            · rw [hih.1]
              simp only [specAddedTarget, hf, tripleDash_no_plus l h3]
              simp
            · rw [hih.2]
              simp only [specRemovedTarget, hf, h3]
              simp
          | inr h3 =>
            constructor
            · rw [hih.1]
              simp only [specAddedTarget, hf, h3]
              simp
            · rw [hih.2]
              simp only [specRemovedTarget, hf, triplePlus_no_minus l h3]
              simp
        · by_cases hlean : strEndsWith s.current_file ".lean" = true
          · have hstep : step_line kws s l = process_line kws s l := by
              unfold step_line
              rw [hf, hh, if_neg hskip, if_neg (by simp [hlean])]
            rw [hstep]
            have hst := process_line_stats kws s l
            have hih := ih (process_line kws s l)
            have hnp : strStartsWith l "+++" = false := by
              cases hb : strStartsWith l "+++" with
              | true => exact absurd (by rw [hb]; simp) hskip
              | false => rfl
            have hnm : strStartsWith l "---" = false := by
              cases hb : strStartsWith l "---" with
              | true => exact absurd (by rw [hb]; simp) hskip
              | false => rfl
            constructor
            · rw [hih.1, hst.2.2.1, hst.1]
              simp only [specAddedTarget, hf, hnp, hlean]
              by_cases hp : strStartsWith l "+" = true
              · simp [hp]
                omega
              · simp [hp]
            · rw [hih.2, hst.2.2.2, hst.1]
              simp only [specRemovedTarget, hf, hnm, hlean]
              by_cases hp : strStartsWith l "+" = true
              · have : strStartsWith l "-" = false := by
                  obtain ⟨t, ht⟩ := headIs_of_prefix l '+' [] (by
                    show (['+']).isPrefixOf l.data = true
                    exact hp)
                  exact strStartsWith_false_of_head l '+' t ht '-' (by decide)
                simp [hp, this]
              · simp [hp]
                by_cases hm : strStartsWith l "-" = true
                · simp [hm]
                  omega
                · simp [hm]
          · have hl2 : strEndsWith s.current_file ".lean" = false := by
              cases hb : strEndsWith s.current_file ".lean" with
              | true => exact absurd hb hlean
              | false => rfl
            have hstep : step_line kws s l = s := by
              unfold step_line
              rw [hf, hh, if_neg hskip, if_pos (by simp [hl2])]
            rw [hstep]
            have hih := ih s
            constructor
            · rw [hih.1]
              simp only [specAddedTarget, hf, hl2]
              simp
            · rw [hih.2]
              simp only [specRemovedTarget, hf, hl2]
              simp

theorem scan_files (kws : List String) :
    ∀ (lines : List String) (s : ScanState),
      (scan kws s lines).files_changed =
        List.foldl insertFileSet s.files_changed
          (lines.filterMap parseFileHeader) := by
  intro lines
  induction lines with
  | nil => intro s; rfl
  | cons l ls ih =>
    intro s
    have hsc : scan kws s (l :: ls) = scan kws (step_line kws s l) ls := rfl
    rw [hsc]
    cases hf : parseFileHeader l with
    | some f =>
      have hstep : step_line kws s l = { s with current_file := f, files_changed := insertFileSet s.files_changed f, current_decl_header := "", current_decl_name := "" } := by
        unfold step_line
        rw [hf]
      have hih := ih (step_line kws s l)
      rw [hstep] at hih ⊢
      rw [hih]
      simp [List.filterMap_cons, hf]
    | none =>
      cases hh : parseHunkHeader l with
      | some pr =>
        have hstep : step_line kws s l = { s with old_line_num := pr.1, new_line_num := pr.2, current_decl_header := "", current_decl_name := "" } := by
          unfold step_line
          rw [hf, hh]
        have hih := ih (step_line kws s l)
        rw [hstep] at hih ⊢
        rw [hih]
        simp [List.filterMap_cons, hf]
      | none =>
        have hstep : step_line kws s l = (if strStartsWith l "---" || strStartsWith l "+++" then s else if !(strEndsWith s.current_file ".lean") then s else process_line kws s l) := by
          unfold step_line
          rw [hf, hh]
        have hfc : (step_line kws s l).files_changed = s.files_changed := by
          rw [hstep]
          split
          · rfl
          · split
            · rfl
            · exact (process_line_stats kws s l).2.1
        have hih := ih (step_line kws s l)
        rw [hih, hfc]
        simp [List.filterMap_cons, hf]

theorem insertFileSet_toFinset (l : List String) (f : String) :
    (insertFileSet l f).toFinset = insert f l.toFinset := by
  unfold insertFileSet
  split
  · next hc =>
    have hf : f ∈ l := List.elem_iff.1 hc
    exact (Finset.insert_eq_self.2 (List.mem_toFinset.2 hf)).symm
  · simp [List.toFinset_append, Finset.union_comm, Finset.insert_eq]

theorem insertFileSet_nodup (l : List String) (f : String) (h : l.Nodup) :
    (insertFileSet l f).Nodup := by
  unfold insertFileSet
  split
  · exact h
  · next hc =>
    refine List.Nodup.append h (List.nodup_singleton f) ?_
    intro x hx hmem
    simp at hmem
    subst hmem
    exact hc (List.elem_iff.2 hx)

theorem foldl_insert_nodup :
    ∀ (hs l : List String), l.Nodup → (List.foldl insertFileSet l hs).Nodup := by
  intro hs
  induction hs with
  | nil => intro l h; exact h
  | cons a as ih => intro l h; exact ih _ (insertFileSet_nodup l a h)

theorem foldl_insert_toFinset :
    ∀ (hs l : List String),
      (List.foldl insertFileSet l hs).toFinset = l.toFinset ∪ hs.toFinset := by
  intro hs
  induction hs with
  | nil => intro l; simp
  | cons a as ih =>
    intro l
    show (List.foldl insertFileSet (insertFileSet l a) as).toFinset = _
    rw [ih (insertFileSet l a), insertFileSet_toFinset]
    simp [List.toFinset_cons, Finset.insert_union, Finset.union_insert]

/-- Claim C3 amended: the distinct-files-touched count does cover ALL files
of the diff, but the added-line and removed-line counters are computed only
over lines lying in files whose path ends in the target extension — the
extension filter at src/summary.py:111 sits before the counting in
_process_line, so the line statistics are not global. -/
theorem C3_stats_scoping (kws : List String) (diff : String) :
    (analyze kws diff).files_changed = specDistinctFiles (splitLines diff) ∧
    (analyze kws diff).lines_added = specAddedTarget "" (splitLines diff) ∧
    (analyze kws diff).lines_removed = specRemovedTarget "" (splitLines diff) := by
  have hc := scan_counts kws (splitLines diff) initState
  have hfiles := scan_files kws (splitLines diff) initState
  refine ⟨?_, ?_, ?_⟩
  · show (scanOnly kws diff).files_changed.length = _
    have h1 : (scanOnly kws diff).files_changed =
        List.foldl insertFileSet []
          ((splitLines diff).filterMap parseFileHeader) := hfiles
    rw [h1]
    have hnd := foldl_insert_nodup ((splitLines diff).filterMap parseFileHeader)
      [] List.nodup_nil
    have h2 := foldl_insert_toFinset ((splitLines diff).filterMap parseFileHeader) []
    unfold specDistinctFiles
    rw [← List.toFinset_card_of_nodup hnd, h2]
    simp
  · have h1 : (analyze kws diff).lines_added =
        0 + specAddedTarget "" (splitLines diff) := hc.1
    rw [h1]
    exact Nat.zero_add _
  · have h1 : (analyze kws diff).lines_removed =
        0 + specRemovedTarget "" (splitLines diff) := hc.2
    rw [h1]
    exact Nat.zero_add _

theorem str_data_append (a b : String) : (a ++ b).data = a.data ++ b.data := by
  cases a
  cases b
  rfl

theorem digitChar_isDigit (n : Nat) (h : n < 10) : (digitChar n).isDigit = true := by
  interval_cases n <;> decide

theorem digitChar_val (n : Nat) (h : n < 10) : (digitChar n).toNat - 48 = n := by
  interval_cases n <;> decide

theorem natChars_all_digits (n : Nat) : ∀ c ∈ natChars n, c.isDigit = true := by
  induction n using Nat.strong_induction_on with
  | _ n ih =>
    rw [natChars]
    split
    · intro c hc
      simp only [List.mem_singleton] at hc
      subst hc
      exact digitChar_isDigit n (by assumption)
    · intro c hc
      rw [List.mem_append] at hc
      cases hc with
      | inl h2 => exact ih (n / 10) (Nat.div_lt_self (by omega) (by omega)) c h2
      | inr h2 =>
        simp only [List.mem_singleton] at h2
        subst h2
        exact digitChar_isDigit (n % 10) (Nat.mod_lt _ (by omega))

theorem digitsVal_snoc (l : List Char) (c : Char) :
    digitsVal (l ++ [c]) = 10 * digitsVal l + (c.toNat - 48) := by
  unfold digitsVal
  rw [List.foldl_append]
  rfl

theorem digitsVal_natChars (n : Nat) : digitsVal (natChars n) = n := by
  induction n using Nat.strong_induction_on with
  | _ n ih =>
    rw [natChars]
    split
    · next h =>
      have hv := digitChar_val n h
      show digitsVal [digitChar n] = n
      unfold digitsVal
      simp [List.foldl]
      omega
    · next h =>
      rw [digitsVal_snoc, ih (n / 10) (Nat.div_lt_self (by omega) (by omega)),
        digitChar_val (n % 10) (Nat.mod_lt _ (by omega))]
      omega

theorem natChars_ne_nil (n : Nat) : (natChars n).isEmpty = false := by
  rw [natChars]
  split <;> simp

theorem takeWhile_all_append (p : Char → Bool) (l1 : List Char)
    (h : ∀ c ∈ l1, p c = true) (c0 : Char) (hc : p c0 = false) (r : List Char) :
    (l1 ++ c0 :: r).takeWhile p = l1 := by
  induction l1 with
  | nil => simp [List.takeWhile_cons, hc]
  | cons a l ihl =>
    simp only [List.cons_append, List.takeWhile_cons, h a (by simp)]
    rw [ihl (fun c hc2 => h c (by simp [hc2]))]
    simp

theorem digit_not_break (c : Char) (h : c.isDigit = true) :
    (isLineBreak c || c = '\r') = false := by
  cases hb : (isLineBreak c || c = '\r') with
  | false => rfl
  | true =>
    exfalso
    unfold isLineBreak at hb
    simp only [Bool.or_eq_true, decide_eq_true_eq] at hb
    rcases hb with ((((((((h2 | h2) | h2) | h2) | h2) | h2) | h2) | h2) | h2) | h2 <;>
      (subst h2; exact absurd h (by decide))

theorem hunk1Line_eq (a : Nat) :
    hunk1Line a =
      ⟨'@' :: '@' :: ' ' :: '-' :: (natChars a ++ (",1 +1,0 @@").data)⟩ := rfl

theorem hunk2Line_eq (b : Nat) :
    hunk2Line b =
      ⟨'@' :: '@' :: ' ' :: '-' :: ('1' :: ',' :: '0' :: ' ' :: '+' ::
        (natChars b ++ (",1 @@").data))⟩ := rfl

theorem parseHunkBody_shape1 (ds : List Char)
    (hds : ∀ c ∈ ds, c.isDigit = true) (hne : ds.isEmpty = false) :
    parseHunkBody (ds ++ (",1 +1,0 @@").data) = some (digitsVal ds, 1) := by
  unfold parseHunkBody
  rw [show (",1 +1,0 @@").data = ',' :: ("1 +1,0 @@").data from rfl]
  rw [takeWhile_all_append Char.isDigit ds hds ',' (by decide)]
  rw [if_neg (by simp [hne])]
  rw [List.drop_left]
  rfl

theorem parseHunkBody_shape2 (ds : List Char)
    (hds : ∀ c ∈ ds, c.isDigit = true) (hne : ds.isEmpty = false) :
    parseHunkBody ('1' :: ',' :: '0' :: ' ' :: '+' :: (ds ++ (",1 @@").data)) =
      some (1, digitsVal ds) := by
  show parseHunkAfterD1 1 (' ' :: '+' :: (ds ++ (",1 @@").data)) = _
  show (if ((ds ++ (",1 @@").data).takeWhile Char.isDigit).isEmpty = true then
      none
    else
      parseHunkAfterD3 1 (digitsVal ((ds ++ (",1 @@").data).takeWhile Char.isDigit))
        (dropComma ((ds ++ (",1 @@").data).drop
          ((ds ++ (",1 @@").data).takeWhile Char.isDigit).length))) = _
  rw [show (",1 @@").data = ',' :: ("1 @@").data from rfl]
  rw [takeWhile_all_append Char.isDigit ds hds ',' (by decide)]
  rw [if_neg (by simp [hne])]
  rw [List.drop_left]
  rfl

theorem parseHunk1 (a : Nat) : parseHunkHeader (hunk1Line a) = some (a, 1) := by
  rw [hunk1Line_eq]
  unfold parseHunkHeader
  rw [if_pos (by simp [List.isPrefixOf])]
  have h := parseHunkBody_shape1 (natChars a) (natChars_all_digits a)
    (natChars_ne_nil a)
  rw [digitsVal_natChars] at h
  exact h

theorem parseHunk2 (b : Nat) : parseHunkHeader (hunk2Line b) = some (1, b) := by
  rw [hunk2Line_eq]
  unfold parseHunkHeader
  rw [if_pos (by simp [List.isPrefixOf])]
  have h := parseHunkBody_shape2 (natChars b) (natChars_all_digits b)
    (natChars_ne_nil b)
  rw [digitsVal_natChars] at h
  exact h

theorem parseFileHeader_of_head (s : String) (c : Char) (t : List Char)
    (hl : s.data = c :: t) (hc : ('d' == c) = false) :
    parseFileHeader s = none := by
  unfold parseFileHeader
  rw [if_neg ?hcond]
  case hcond =>
    rw [hl]
    simp [List.isPrefixOf, hc]

theorem parseFileHeader_hunk1 (a : Nat) :
    parseFileHeader (hunk1Line a) = none := by
  refine parseFileHeader_of_head _ '@'
    ('@' :: ' ' :: '-' :: (natChars a ++ (",1 +1,0 @@").data)) ?_ (by decide)
  rw [hunk1Line_eq]

theorem parseFileHeader_hunk2 (b : Nat) :
    parseFileHeader (hunk2Line b) = none := by
  refine parseFileHeader_of_head _ '@'
    ('@' :: ' ' :: '-' :: '1' :: ',' :: '0' :: ' ' :: '+' ::
      (natChars b ++ (",1 @@").data)) ?_ (by decide)
  rw [hunk2Line_eq]

theorem splitLinesAux_append (l : List Char)
    (hl : ∀ c ∈ l, (isLineBreak c || c = '\r') = false) (r : List Char) :
    ∀ acc, splitLinesAux acc (l ++ '\n' :: r) =
      (acc.reverse ++ l) :: splitLinesAux [] r := by
  induction l with
  | nil =>
    intro acc
    show splitLinesAux acc ('\n' :: r) = _
    rw [splitLinesAux.eq_4 acc '\n' r (fun _ h _ => absurd h (by decide))
      (fun h => absurd h (by decide)), if_pos (by decide)]
    simp
  | cons c l ihl =>
    intro acc
    have hc := hl c (by simp)
    have hc1 : isLineBreak c = false := by
      cases hb : isLineBreak c with
      | false => rfl
      | true => rw [hb] at hc; simp at hc
    have hc2 : ¬c = '\r' := by
      intro he
      rw [he] at hc
      simp at hc
    show splitLinesAux acc (c :: (l ++ '\n' :: r)) = _
    rw [splitLinesAux.eq_4 acc c (l ++ '\n' :: r) (fun _ h _ => absurd h hc2)
      (fun h => absurd h hc2), if_neg (by simp [hc1])]
    rw [ihl (fun x hx => hl x (by simp [hx])) (c :: acc)]
    simp

theorem splitLines_append (a : String)
    (ha : ∀ c ∈ a.data, (isLineBreak c || c = '\r') = false) (b : String) :
    splitLines (a ++ "\n" ++ b) = a :: splitLines b := by
  unfold splitLines
  have hd : (a ++ "\n" ++ b).data = a.data ++ '\n' :: b.data := by
    rw [str_data_append, str_data_append, List.append_assoc]
    rfl
  rw [hd, splitLinesAux_append a.data ha b.data []]
  simp

theorem hunk1Line_nobreak (a : Nat) :
    ∀ c ∈ (hunk1Line a).data, (isLineBreak c || c = '\r') = false := by
  intro c hc
  rw [hunk1Line_eq] at hc
  simp only [List.mem_cons, List.mem_append] at hc
  rcases hc with h | h | h | h | hc2
  · subst h; decide
  · subst h; decide
  · subst h; decide
  · subst h; decide
  · rcases hc2 with h | h
    · exact digit_not_break c (natChars_all_digits a c h)
    · rcases h with h|h|h|h|h|h|h|h|h|h|h <;> first | (subst h; decide) | simp at h

theorem hunk2Line_nobreak (b : Nat) :
    ∀ c ∈ (hunk2Line b).data, (isLineBreak c || c = '\r') = false := by
  intro c hc
  rw [hunk2Line_eq] at hc
  simp only [List.mem_cons, List.mem_append] at hc
  rcases hc with h | h | h | h | h | h | h | h | h | hc2
  · subst h; decide
  · subst h; decide
  · subst h; decide
  · subst h; decide
  · subst h; decide
  · subst h; decide
  · subst h; decide
  · subst h; decide
  · subst h; decide
  · rcases hc2 with h | h
    · exact digit_not_break c (natChars_all_digits b c h)
    · rcases h with h|h|h|h|h|h <;> first | (subst h; decide) | simp at h

theorem step_line_hunk (kws : List String) (s : ScanState) (line : String)
    (o n : Nat) (hf : parseFileHeader line = none)
    (hh : parseHunkHeader line = some (o, n)) :
    step_line kws s line = { s with old_line_num := o, new_line_num := n, current_decl_header := "", current_decl_name := "" } := by
  unfold step_line
  rw [hf, hh]

theorem step_declRemoved (s : ScanState) (hf : s.current_file = "Foo.lean") :
    step_line ["theorem"] s declRemovedLine = { s with lines_removed := s.lines_removed + 1, old_line_num := s.old_line_num + 1, current_decl_header := "theorem foo : True := sorry", current_decl_name := "foo", raw_removed := insertAssoc s.raw_removed "foo@Foo.lean" ⟨"foo@Foo.lean", "Foo.lean", "foo", "theorem foo : True", s.old_line_num⟩ } := by
  cases s with
  | mk f1 f2 f3 f4 f5 f6 f7 f8 f9 f10 f11 f12 f13 =>
    have hg : f7 = "Foo.lean" := hf
    subst hg
    rfl

theorem step_declAdded (s : ScanState) (hf : s.current_file = "Foo.lean") :
    step_line ["theorem"] s declAddedLine = { s with lines_added := s.lines_added + 1, new_line_num := s.new_line_num + 1, current_decl_header := "theorem foo : True := sorry", current_decl_name := "foo", raw_added := insertAssoc s.raw_added "foo@Foo.lean" ⟨"foo@Foo.lean", "Foo.lean", "foo", "theorem foo : True", s.new_line_num⟩ } := by
  cases s with
  | mk f1 f2 f3 f4 f5 f6 f7 f8 f9 f10 f11 f12 f13 =>
    have hg : f7 = "Foo.lean" := hf
    subst hg
    rfl

/-- Claim C4: a pure move of the marker-bearing declaration foo in Foo.lean,
removed at old line a and re-added identically at new line b with a distinct
from b, is classified as exactly one affected entry with old_line a and
new_line b, and the stable id appears in neither the added- nor the
removed-markers list. -/
theorem C4_pure_move (a b : Nat) (h : a ≠ b) :
    (analyze ["theorem"] (moveDiff a b)).affected_sorries = [moveAffected a b] ∧
    (analyze ["theorem"] (moveDiff a b)).added_sorries = [] ∧
    (analyze ["theorem"] (moveDiff a b)).removed_sorries = [] := by
  have hsplit : splitLines (moveDiff a b) =
      [fooHeaderLine, hunk1Line a, declRemovedLine, hunk2Line b,
        declAddedLine] := by
    unfold moveDiff
    rw [splitLines_append fooHeaderLine (by decide) _]
    rw [splitLines_append (hunk1Line a) (hunk1Line_nobreak a) _]
    rw [splitLines_append declRemovedLine (by decide) _]
    rw [splitLines_append (hunk2Line b) (hunk2Line_nobreak b) _]
    rw [show splitLines declAddedLine = [declAddedLine] from by decide]
  have h1 : step_line ["theorem"] initState fooHeaderLine =
      (⟨["Foo.lean"], 0, 0, [], [], [], "Foo.lean", 0, 0, "", "", [], []⟩ : ScanState) := by
    decide
  have h2 : step_line ["theorem"]
      (⟨["Foo.lean"], 0, 0, [], [], [], "Foo.lean", 0, 0, "", "", [], []⟩ : ScanState)
      (hunk1Line a) =
      (⟨["Foo.lean"], 0, 0, [], [], [], "Foo.lean", a, 1, "", "", [], []⟩ : ScanState) := by
    rw [step_line_hunk ["theorem"] _ _ a 1 (parseFileHeader_hunk1 a) (parseHunk1 a)]
  have h3 : step_line ["theorem"]
      (⟨["Foo.lean"], 0, 0, [], [], [], "Foo.lean", a, 1, "", "", [], []⟩ : ScanState)
      declRemovedLine =
      (⟨["Foo.lean"], 0, 1, [], [], [], "Foo.lean", a + 1, 1,
        "theorem foo : True := sorry", "foo", [],
        [("foo@Foo.lean", ⟨"foo@Foo.lean", "Foo.lean", "foo", "theorem foo : True", a⟩)]⟩ : ScanState) :=
    step_declRemoved _ rfl
  have h4 : step_line ["theorem"]
      (⟨["Foo.lean"], 0, 1, [], [], [], "Foo.lean", a + 1, 1,
        "theorem foo : True := sorry", "foo", [],
        [("foo@Foo.lean", ⟨"foo@Foo.lean", "Foo.lean", "foo", "theorem foo : True", a⟩)]⟩ : ScanState)
      (hunk2Line b) =
      (⟨["Foo.lean"], 0, 1, [], [], [], "Foo.lean", 1, b, "", "", [],
        [("foo@Foo.lean", ⟨"foo@Foo.lean", "Foo.lean", "foo", "theorem foo : True", a⟩)]⟩ : ScanState) := by
    rw [step_line_hunk ["theorem"] _ _ 1 b (parseFileHeader_hunk2 b) (parseHunk2 b)]
  have h5 : step_line ["theorem"]
      (⟨["Foo.lean"], 0, 1, [], [], [], "Foo.lean", 1, b, "", "", [],
        [("foo@Foo.lean", ⟨"foo@Foo.lean", "Foo.lean", "foo", "theorem foo : True", a⟩)]⟩ : ScanState)
      declAddedLine =
      (⟨["Foo.lean"], 1, 1, [], [], [], "Foo.lean", 1, b + 1,
        "theorem foo : True := sorry", "foo",
        [("foo@Foo.lean", ⟨"foo@Foo.lean", "Foo.lean", "foo", "theorem foo : True", b⟩)],
        [("foo@Foo.lean", ⟨"foo@Foo.lean", "Foo.lean", "foo", "theorem foo : True", a⟩)]⟩ : ScanState) :=
    step_declAdded _ rfl
  have hscan : scan ["theorem"] initState
      [fooHeaderLine, hunk1Line a, declRemovedLine, hunk2Line b, declAddedLine] =
      (⟨["Foo.lean"], 1, 1, [], [], [], "Foo.lean", 1, b + 1,
        "theorem foo : True := sorry", "foo",
        [("foo@Foo.lean", ⟨"foo@Foo.lean", "Foo.lean", "foo", "theorem foo : True", b⟩)],
        [("foo@Foo.lean", ⟨"foo@Foo.lean", "Foo.lean", "foo", "theorem foo : True", a⟩)]⟩ : ScanState) := by
    unfold scan
    rw [List.foldl_cons, h1, List.foldl_cons, h2, List.foldl_cons, h3,
      List.foldl_cons, h4, List.foldl_cons, h5, List.foldl_nil]
  have hana : analyze ["theorem"] (moveDiff a b) =
      toResult (categorize
        (⟨["Foo.lean"], 1, 1, [], [], [], "Foo.lean", 1, b + 1,
          "theorem foo : True := sorry", "foo",
          [("foo@Foo.lean", ⟨"foo@Foo.lean", "Foo.lean", "foo", "theorem foo : True", b⟩)],
          [("foo@Foo.lean", ⟨"foo@Foo.lean", "Foo.lean", "foo", "theorem foo : True", a⟩)]⟩ : ScanState)) := by
    unfold analyze runDiff
    rw [hsplit, hscan]
  rw [hana]
  exact ⟨rfl, rfl, rfl⟩

/-- Witness for C4_pure_move at the Scenario C line numbers 10 and 25. -/
theorem C4_pure_move_witness :
    (analyze ["theorem"] (moveDiff 10 25)).affected_sorries =
      [moveAffected 10 25] ∧
    (analyze ["theorem"] (moveDiff 10 25)).added_sorries = [] ∧
    (analyze ["theorem"] (moveDiff 10 25)).removed_sorries = [] :=
  C4_pure_move 10 25 (by decide)

theorem mergeInto_nil (m : List (String × SorryInfo)) : mergeInto m [] = m := rfl

theorem mergeInto_cons (m : List (String × SorryInfo)) (k : String)
    (v : SorryInfo) (T : List (String × SorryInfo)) :
    mergeInto m ((k, v) :: T) = mergeInto (insertAssoc m k v) T := rfl

theorem mergeInto_append (m : List (String × SorryInfo))
    (T1 T2 : List (String × SorryInfo)) :
    mergeInto m (T1 ++ T2) = mergeInto (mergeInto m T1) T2 := by
  unfold mergeInto
  exact List.foldl_append _ _ _ _

theorem lookupA_none_of_not_mem (m : List (String × SorryInfo)) (k : String)
    (h : ¬k ∈ keysOf m) : lookupA m k = none := by
  induction m with
  | nil => rfl
  | cons p ps ih =>
    have hp : ¬p.1 = k := by
      intro he
      exact h (by simp [keysOf, he])
    simp only [lookupA, List.find?_cons,
      show (decide (p.1 = k)) = false from by simp [hp]]
    exact ih (fun hm => h (by simp [keysOf] at hm ⊢; exact Or.inr hm))

theorem lookupA_append_single (m : List (String × SorryInfo)) (k : String)
    (v : SorryInfo) (k2 : String) :
    lookupA (m ++ [(k, v)]) k2 =
      match lookupA m k2 with
      | some w => some w
      | none => if k2 = k then some v else none := by
  induction m with
  | nil =>
    by_cases h : k2 = k
    · subst h
      simp [lookupA, List.find?_cons]
    · have hdk : (decide (k = k2)) = false := by
        simp
        intro he
        exact h he.symm
      simp [lookupA, List.find?_cons, hdk, h]
  | cons p ps ih =>
    by_cases hp : p.1 = k2
    · simp [lookupA, List.find?_cons, hp]
    · simp only [List.cons_append, lookupA, List.find?_cons,
        show (decide (p.1 = k2)) = false from by simp [hp]]
      exact ih

theorem lookupA_map_ne (m : List (String × SorryInfo)) (k : String)
    (v : SorryInfo) (k2 : String) (h : ¬k2 = k) :
    lookupA (m.map (fun p => if p.1 = k then (k, v) else p)) k2 =
      lookupA m k2 := by
  induction m with
  | nil => rfl
  | cons p ps ih =>
    by_cases hp : p.1 = k
    · simp only [List.map_cons, if_pos hp, lookupA, List.find?_cons,
        show (decide (k = k2)) = false from by simp; intro he; exact h he.symm,
        show (decide (p.1 = k2)) = false from by
          simp; rw [hp]; intro he; exact h he.symm]
      exact ih
    · simp only [List.map_cons, if_neg hp, lookupA, List.find?_cons]
      by_cases h3 : p.1 = k2
      · simp [h3]
      · simp only [show (decide (p.1 = k2)) = false from by simp [h3]]
        exact ih

theorem lookupA_map_eq (m : List (String × SorryInfo)) (k : String)
    (v : SorryInfo) (hmem : k ∈ keysOf m) :
    lookupA (m.map (fun p => if p.1 = k then (k, v) else p)) k = some v := by
  induction m with
  | nil => simp [keysOf] at hmem
  | cons p ps ih =>
    by_cases hp : p.1 = k
    · simp [lookupA, List.find?_cons, hp]
    · simp only [List.map_cons, if_neg hp, lookupA, List.find?_cons,
        show (decide (p.1 = k)) = false from by simp [hp]]
      apply ih
      have hmem2 := hmem
      simp only [keysOf, List.map_cons, List.mem_cons] at hmem2
      rcases hmem2 with h | h
      · exact absurd h.symm hp
      · exact h

theorem lookupA_insertAssoc (m : List (String × SorryInfo)) (k : String)
    (v : SorryInfo) (k2 : String) :
    lookupA (insertAssoc m k v) k2 = if k2 = k then some v else lookupA m k2 := by
  unfold insertAssoc
  by_cases hmem : k ∈ keysOf m
  · rw [if_pos ((any_key_eq_mem m k).2 hmem)]
    by_cases h2 : k2 = k
    · subst h2
      rw [if_pos rfl]
      exact lookupA_map_eq m k2 v hmem
    · rw [if_neg h2]
      exact lookupA_map_ne m k v k2 h2
  · rw [if_neg (by rw [any_key_eq_mem]; exact hmem)]
    rw [lookupA_append_single]
    by_cases h2 : k2 = k
    · subst h2
      rw [lookupA_none_of_not_mem m k2 hmem]
    · cases hl : lookupA m k2 with
      | none => simp [h2]
      | some w => simp [h2]

theorem find?_append_cases (l1 l2 : List (String × SorryInfo))
    (p : (String × SorryInfo) → Bool) :
    (l1 ++ l2).find? p =
      match l1.find? p with
      | some x => some x
      | none => l2.find? p := by
  induction l1 with
  | nil => rfl
  | cons a l ih =>
    by_cases h : p a
    · simp [List.find?_cons, h]
    · simp [List.find?_cons, h, ih]

theorem traceLast_cons (k1 : String) (v1 : SorryInfo)
    (T : List (String × SorryInfo)) (k : String) :
    traceLast ((k1, v1) :: T) k =
      match traceLast T k with
      | some w => some w
      | none => if k1 = k then some v1 else none := by
  unfold traceLast
  rw [List.reverse_cons, find?_append_cases]
  cases hf : List.find? (fun p => p.1 = k) T.reverse with
  | some q => simp [hf]
  | none =>
    simp only [hf, Option.map_none]
    by_cases h : k1 = k
    · simp [List.find?_cons, h]
    · simp [List.find?_cons, h]

theorem lookupA_mergeInto (T : List (String × SorryInfo)) :
    ∀ (m : List (String × SorryInfo)) (k : String),
      lookupA (mergeInto m T) k =
        match traceLast T k with
        | some w => some w
        | none => lookupA m k := by
  induction T with
  | nil => intro m k; simp [mergeInto, traceLast]
  | cons p T2 ih =>
    obtain ⟨k1, v1⟩ := p
    intro m k
    rw [show mergeInto m ((k1, v1) :: T2) = mergeInto (insertAssoc m k1 v1) T2
      from rfl]
    rw [ih (insertAssoc m k1 v1) k]
    rw [traceLast_cons k1 v1 T2 k]
    cases ht : traceLast T2 k with
    | some w => rfl
    | none =>
      rw [lookupA_insertAssoc]
      by_cases h : k = k1
      · simp [h]
      · have hne : ¬(k1 = k) := fun he => h he.symm
        rw [if_neg hne, if_neg h]

theorem keysOf_mergeInto_of_subset (T : List (String × SorryInfo)) :
    ∀ (m : List (String × SorryInfo)),
      (∀ k ∈ keysOf T, k ∈ keysOf m) → keysOf (mergeInto m T) = keysOf m := by
  induction T with
  | nil => intro m _; rfl
  | cons p T2 ih =>
    intro m hsub
    rw [show mergeInto m (p :: T2) = mergeInto (insertAssoc m p.1 p.2) T2 from rfl]
    have hp : p.1 ∈ keysOf m := hsub p.1 (by simp [keysOf])
    have hk : keysOf (insertAssoc m p.1 p.2) = keysOf m := by
      rw [keysOf_insertAssoc, if_pos hp]
    rw [ih (insertAssoc m p.1 p.2) (fun k hkk => by
      rw [hk]
      exact hsub k (by simp [keysOf] at hkk ⊢; exact Or.inr hkk)), hk]

theorem keysOf_mono_mergeInto (T : List (String × SorryInfo)) :
    ∀ (m : List (String × SorryInfo)) (k : String),
      k ∈ keysOf m → k ∈ keysOf (mergeInto m T) := by
  induction T with
  | nil => intro m k hk; exact hk
  | cons p T2 ih =>
    intro m k hk
    rw [show mergeInto m (p :: T2) = mergeInto (insertAssoc m p.1 p.2) T2 from rfl]
    refine ih (insertAssoc m p.1 p.2) k ?_
    rw [keysOf_insertAssoc]
    by_cases h : p.1 ∈ keysOf m
    · rw [if_pos h]; exact hk
    · rw [if_neg h]; simp [hk]

theorem trace_keys_mem_merge (T : List (String × SorryInfo)) :
    ∀ (m : List (String × SorryInfo)) (k : String),
      k ∈ keysOf T → k ∈ keysOf (mergeInto m T) := by
  induction T with
  | nil => intro m k hk; simp [keysOf] at hk
  | cons p T2 ih =>
    intro m k hk
    rw [show mergeInto m (p :: T2) = mergeInto (insertAssoc m p.1 p.2) T2 from rfl]
    simp only [keysOf, List.map_cons, List.mem_cons] at hk
    rcases hk with h | h
    · subst h
      refine keysOf_mono_mergeInto T2 _ _ ?_
      rw [keysOf_insertAssoc]
      by_cases hm : p.1 ∈ keysOf m
      · rw [if_pos hm]; exact hm
      · rw [if_neg hm]; simp
    · exact ih _ k h

theorem mergeInto_nodup (T : List (String × SorryInfo)) :
    ∀ (m : List (String × SorryInfo)), (keysOf m).Nodup →
      (keysOf (mergeInto m T)).Nodup := by
  induction T with
  | nil => intro m h; exact h
  | cons p T2 ih =>
    intro m h
    exact ih _ (keysOf_insertAssoc_nodup m p.1 p.2 h)

theorem assoc_ext : ∀ (m1 m2 : List (String × SorryInfo)),
    keysOf m1 = keysOf m2 → (keysOf m1).Nodup →
    (∀ k, lookupA m1 k = lookupA m2 k) → m1 = m2 := by
  intro m1
  induction m1 with
  | nil =>
    intro m2 hk _ _
    cases m2 with
    | nil => rfl
    | cons q qs => simp [keysOf] at hk
  | cons p ps ih =>
    intro m2 hk hnd hl
    cases m2 with
    | nil => simp [keysOf] at hk
    | cons q qs =>
      simp only [keysOf, List.map_cons, List.cons.injEq] at hk
      have hkey : p.1 = q.1 := hk.1
      have hval : p.2 = q.2 := by
        have h1 := hl p.1
        simp [lookupA, List.find?_cons, hkey] at h1
        exact h1
      have hnd2 : (keysOf ps).Nodup := by
        simp only [keysOf, List.map_cons, List.nodup_cons] at hnd
        exact hnd.2
      have hnotin : ¬p.1 ∈ keysOf ps := by
        simp only [keysOf, List.map_cons, List.nodup_cons] at hnd
        exact hnd.1
      have htl : ∀ k, lookupA ps k = lookupA qs k := by
        intro k
        by_cases h : k = p.1
        · subst h
          rw [lookupA_none_of_not_mem ps p.1 hnotin,
            lookupA_none_of_not_mem qs p.1 (by simp only [keysOf]; rw [← hk.2]; exact hnotin)]
        · have h2 := hl k
          simp only [lookupA, List.find?_cons,
            show (decide (p.1 = k)) = false from by simp; intro he; exact h he.symm,
            show (decide (q.1 = k)) = false from by
              simp; rw [← hkey]; intro he; exact h he.symm] at h2
          exact h2
      have := ih qs hk.2 hnd2 htl
      cases p
      cases q
      simp only at hkey hval
      rw [hkey, hval, this]

theorem mergeInto_self (T : List (String × SorryInfo)) :
    mergeInto (mergeInto [] T) T = mergeInto [] T := by
  refine assoc_ext _ _ ?_ ?_ ?_
  · exact keysOf_mergeInto_of_subset T (mergeInto [] T)
      (fun k hk => trace_keys_mem_merge T [] k hk)
  · exact mergeInto_nodup T _ (mergeInto_nodup T [] List.nodup_nil)
  · intro k
    rw [lookupA_mergeInto T (mergeInto [] T) k]
    cases ht : traceLast T k with
    | some w =>
      rw [lookupA_mergeInto T [] k, ht]
    | none => rfl

theorem ctrlOf_updateDecl (kws : List String) (s : ScanState) (line : String) :
    ctrlOf (updateDecl kws s line) = ctrlUpdateDecl kws (ctrlOf s) line := by
  unfold updateDecl ctrlUpdateDecl
  by_cases h : isDeclStart kws line = true
  · rw [if_pos h, if_pos h]
    cases hne : nameExtract kws (subPM line) with
    | some nm => rfl
    | none => rfl
  · rw [if_neg h, if_neg h]

theorem ctrlOf_recordMarker (s : ScanState) (line : String) :
    ctrlOf (recordMarker s line) = ctrlOf s := by
  unfold recordMarker
  split
  · split
    · rfl
    · split
      · rfl
      · split
        · rfl
        · rfl
  · rfl

theorem ctrlOf_track (kws : List String) (s : ScanState) (line : String) :
    ctrlOf (track_sorries kws s line) = ctrlUpdateDecl kws (ctrlOf s) line := by
  unfold track_sorries
  rw [ctrlOf_recordMarker, ctrlOf_updateDecl]

theorem ctrlOf_process_line (kws : List String) (s : ScanState) (line : String) :
    ctrlOf (process_line kws s line) = ctrlContent kws (ctrlOf s) line := by
  unfold process_line ctrlContent
  split
  · exact congrArg (fun c => { c with newn := c.newn + 1 })
      (ctrlOf_track kws { s with lines_added := s.lines_added + 1 } line)
  · split
    · exact congrArg (fun c => { c with oldn := c.oldn + 1 })
        (ctrlOf_track kws { s with lines_removed := s.lines_removed + 1 } line)
    · exact congrArg (fun c => { c with oldn := c.oldn + 1, newn := c.newn + 1 })
        (ctrlOf_track kws s line)

theorem ctrlOf_step_line (kws : List String) (s : ScanState) (line : String) :
    ctrlOf (step_line kws s line) = ctrlStep kws (ctrlOf s) line := by
  unfold step_line ctrlStep
  cases hpf : parseFileHeader line with
  | some f => rfl
  | none =>
    cases hph : parseHunkHeader line with
    | some pr => rfl
    | none =>
      by_cases h3 : (strStartsWith line "---" || strStartsWith line "+++") = true
      · rw [if_pos h3, if_pos h3]
      · rw [if_neg h3, if_neg h3]
        by_cases h4 : (!(strEndsWith s.current_file ".lean")) = true
        · rw [if_pos h4,
            if_pos (show (!(strEndsWith (ctrlOf s).file ".lean")) = true from h4)]
        · rw [if_neg h4,
            if_neg (show ¬(!(strEndsWith (ctrlOf s).file ".lean")) = true from h4)]
          exact ctrlOf_process_line kws s line

theorem recordMarker_added_tr (s : ScanState) (line : String) :
    (recordMarker s line).raw_added =
      mergeInto s.raw_added (ctrlEmitAdded (ctrlOf s) line) := by
  unfold recordMarker ctrlEmitAdded ctrlOf
  by_cases hc : (containsSub line "sorry" && !(s.current_decl_name = "")) = true
  · rw [if_pos hc, if_pos hc]
    by_cases hg : (match strFind line "--" with
        | some cpos => decide (cpos < (strFind line "sorry").getD 0)
        | none => false) = true
    · rw [if_pos hg, if_pos hg]; rfl
    · rw [if_neg hg, if_neg hg]
      by_cases hp : strStartsWith line "+" = true
      · rw [if_pos hp, if_pos hp]; rfl
      · rw [if_neg hp, if_neg hp]
        by_cases hm : strStartsWith line "-" = true
        · rw [if_pos hm]; rfl
        · rw [if_neg hm]; rfl
  · rw [if_neg hc, if_neg hc]; rfl

theorem recordMarker_removed_tr (s : ScanState) (line : String) :
    (recordMarker s line).raw_removed =
      mergeInto s.raw_removed (ctrlEmitRemoved (ctrlOf s) line) := by
  unfold recordMarker ctrlEmitRemoved ctrlOf
  by_cases hc : (containsSub line "sorry" && !(s.current_decl_name = "")) = true
  · rw [if_pos hc, if_pos hc]
    by_cases hg : (match strFind line "--" with
        | some cpos => decide (cpos < (strFind line "sorry").getD 0)
        | none => false) = true
    · rw [if_pos hg, if_pos hg]; rfl
    · rw [if_neg hg, if_neg hg]
      by_cases hp : strStartsWith line "+" = true
      · rw [if_pos hp, if_pos hp]; rfl
      · rw [if_neg hp, if_neg hp]
        by_cases hm : strStartsWith line "-" = true
        · rw [if_pos hm, if_pos hm]; rfl
        · rw [if_neg hm, if_neg hm]; rfl
  · rw [if_neg hc, if_neg hc]; rfl

theorem track_added_tr (kws : List String) (s : ScanState) (line : String) :
    (track_sorries kws s line).raw_added =
      mergeInto s.raw_added
        (ctrlEmitAdded (ctrlUpdateDecl kws (ctrlOf s) line) line) := by
  unfold track_sorries
  rw [recordMarker_added_tr, updateDecl_raw_added, ctrlOf_updateDecl]

theorem track_removed_tr (kws : List String) (s : ScanState) (line : String) :
    (track_sorries kws s line).raw_removed =
      mergeInto s.raw_removed
        (ctrlEmitRemoved (ctrlUpdateDecl kws (ctrlOf s) line) line) := by
  unfold track_sorries
  rw [recordMarker_removed_tr, updateDecl_raw_removed, ctrlOf_updateDecl]

theorem process_added_tr (kws : List String) (s : ScanState) (line : String) :
    (process_line kws s line).raw_added =
      mergeInto s.raw_added
        (ctrlEmitAdded (ctrlUpdateDecl kws (ctrlOf s) line) line) := by
  unfold process_line
  split
  · exact track_added_tr kws { s with lines_added := s.lines_added + 1 } line
  · split
    · exact track_added_tr kws { s with lines_removed := s.lines_removed + 1 } line
    · exact track_added_tr kws s line

theorem process_removed_tr (kws : List String) (s : ScanState) (line : String) :
    (process_line kws s line).raw_removed =
      mergeInto s.raw_removed
        (ctrlEmitRemoved (ctrlUpdateDecl kws (ctrlOf s) line) line) := by
  unfold process_line
  split
  · exact track_removed_tr kws { s with lines_added := s.lines_added + 1 } line
  · split
    · exact track_removed_tr kws { s with lines_removed := s.lines_removed + 1 } line
    · exact track_removed_tr kws s line

theorem step_added_tr (kws : List String) (s : ScanState) (line : String) :
    (step_line kws s line).raw_added =
      mergeInto s.raw_added (stepEmitAdded kws (ctrlOf s) line) := by
  unfold step_line stepEmitAdded
  cases hpf : parseFileHeader line with
  | some f => rfl
  | none =>
    cases hph : parseHunkHeader line with
    | some pr => rfl
    | none =>
      by_cases h3 : (strStartsWith line "---" || strStartsWith line "+++") = true
      · rw [if_pos h3, if_pos h3]; rfl
      · rw [if_neg h3, if_neg h3]
        by_cases h4 : (!(strEndsWith s.current_file ".lean")) = true
        · rw [if_pos h4,
            if_pos (show (!(strEndsWith (ctrlOf s).file ".lean")) = true from h4)]; rfl
        · rw [if_neg h4,
            if_neg (show ¬(!(strEndsWith (ctrlOf s).file ".lean")) = true from h4)]
          exact process_added_tr kws s line

theorem step_removed_tr (kws : List String) (s : ScanState) (line : String) :
    (step_line kws s line).raw_removed =
      mergeInto s.raw_removed (stepEmitRemoved kws (ctrlOf s) line) := by
  unfold step_line stepEmitRemoved
  cases hpf : parseFileHeader line with
  | some f => rfl
  | none =>
    cases hph : parseHunkHeader line with
    | some pr => rfl
    | none =>
      by_cases h3 : (strStartsWith line "---" || strStartsWith line "+++") = true
      · rw [if_pos h3, if_pos h3]; rfl
      · rw [if_neg h3, if_neg h3]
        by_cases h4 : (!(strEndsWith s.current_file ".lean")) = true
        · rw [if_pos h4,
            if_pos (show (!(strEndsWith (ctrlOf s).file ".lean")) = true from h4)]; rfl
        · rw [if_neg h4,
            if_neg (show ¬(!(strEndsWith (ctrlOf s).file ".lean")) = true from h4)]
          exact process_removed_tr kws s line

theorem scan_added_tr (kws : List String) :
    ∀ (L : List String) (s : ScanState),
      (scan kws s L).raw_added =
        mergeInto s.raw_added (traceAdded kws (ctrlOf s) L) := by
  intro L
  induction L with
  | nil => intro s; rfl
  | cons l ls ih =>
    intro s
    have hsc : scan kws s (l :: ls) = scan kws (step_line kws s l) ls := rfl
    rw [hsc, ih (step_line kws s l), step_added_tr, ctrlOf_step_line]
    rw [show traceAdded kws (ctrlOf s) (l :: ls) =
      stepEmitAdded kws (ctrlOf s) l ++
        traceAdded kws (ctrlStep kws (ctrlOf s) l) ls from rfl]
    exact (mergeInto_append s.raw_added (stepEmitAdded kws (ctrlOf s) l)
      (traceAdded kws (ctrlStep kws (ctrlOf s) l) ls)).symm

theorem scan_removed_tr (kws : List String) :
    ∀ (L : List String) (s : ScanState),
      (scan kws s L).raw_removed =
        mergeInto s.raw_removed (traceRemoved kws (ctrlOf s) L) := by
  intro L
  induction L with
  | nil => intro s; rfl
  | cons l ls ih =>
    intro s
    have hsc : scan kws s (l :: ls) = scan kws (step_line kws s l) ls := rfl
    rw [hsc, ih (step_line kws s l), step_removed_tr, ctrlOf_step_line]
    rw [show traceRemoved kws (ctrlOf s) (l :: ls) =
      stepEmitRemoved kws (ctrlOf s) l ++
        traceRemoved kws (ctrlStep kws (ctrlOf s) l) ls from rfl]
    exact (mergeInto_append s.raw_removed (stepEmitRemoved kws (ctrlOf s) l)
      (traceRemoved kws (ctrlStep kws (ctrlOf s) l) ls)).symm

theorem categorize_added (s : ScanState) :
    (categorize s).added_sorries =
      s.added_sorries ++ addedOut s.raw_added s.raw_removed := rfl

theorem categorize_removed (s : ScanState) :
    (categorize s).removed_sorries =
      s.removed_sorries ++ removedOut s.raw_added s.raw_removed := rfl

theorem categorize_affected (s : ScanState) :
    (categorize s).affected_sorries =
      s.affected_sorries ++ affectedOut s.raw_added s.raw_removed := rfl

theorem traceAdded_two_headers (kws : List String) (l0 l1 : String)
    (f : String) (o n : Nat)
    (hf : parseFileHeader l0 = some f)
    (hn1 : parseFileHeader l1 = none)
    (hh : parseHunkHeader l1 = some (o, n)) (c : CtrlState)
    (rest : List String) :
    traceAdded kws c (l0 :: l1 :: rest) =
      traceAdded kws ⟨f, o, n, "", ""⟩ rest := by
  rw [show traceAdded kws c (l0 :: l1 :: rest) =
    stepEmitAdded kws c l0 ++
      traceAdded kws (ctrlStep kws c l0) (l1 :: rest) from rfl]
  have e0 : stepEmitAdded kws c l0 = [] := by
    unfold stepEmitAdded; rw [hf]
  have e1 : ctrlStep kws c l0 =
      { c with file := f, dheader := "", dname := "" } := by
    unfold ctrlStep; rw [hf]
  rw [e0, e1]
  rw [show traceAdded kws { c with file := f, dheader := "", dname := "" }
      (l1 :: rest) =
    stepEmitAdded kws { c with file := f, dheader := "", dname := "" } l1 ++
      traceAdded kws
        (ctrlStep kws { c with file := f, dheader := "", dname := "" } l1)
        rest from rfl]
  have e2 : stepEmitAdded kws
      { c with file := f, dheader := "", dname := "" } l1 = [] := by
    unfold stepEmitAdded; rw [hn1, hh]
  have e3 : ctrlStep kws { c with file := f, dheader := "", dname := "" } l1 =
      (⟨f, o, n, "", ""⟩ : CtrlState) := by
    unfold ctrlStep; rw [hn1, hh]
  rw [e2, e3]
  rfl

theorem traceRemoved_two_headers (kws : List String) (l0 l1 : String)
    (f : String) (o n : Nat)
    (hf : parseFileHeader l0 = some f)
    (hn1 : parseFileHeader l1 = none)
    (hh : parseHunkHeader l1 = some (o, n)) (c : CtrlState)
    (rest : List String) :
    traceRemoved kws c (l0 :: l1 :: rest) =
      traceRemoved kws ⟨f, o, n, "", ""⟩ rest := by
  rw [show traceRemoved kws c (l0 :: l1 :: rest) =
    stepEmitRemoved kws c l0 ++
      traceRemoved kws (ctrlStep kws c l0) (l1 :: rest) from rfl]
  have e0 : stepEmitRemoved kws c l0 = [] := by
    unfold stepEmitRemoved; rw [hf]
  have e1 : ctrlStep kws c l0 =
      { c with file := f, dheader := "", dname := "" } := by
    unfold ctrlStep; rw [hf]
  rw [e0, e1]
  rw [show traceRemoved kws { c with file := f, dheader := "", dname := "" }
      (l1 :: rest) =
    stepEmitRemoved kws { c with file := f, dheader := "", dname := "" } l1 ++
      traceRemoved kws
        (ctrlStep kws { c with file := f, dheader := "", dname := "" } l1)
        rest from rfl]
  have e2 : stepEmitRemoved kws
      { c with file := f, dheader := "", dname := "" } l1 = [] := by
    unfold stepEmitRemoved; rw [hn1, hh]
  have e3 : ctrlStep kws { c with file := f, dheader := "", dname := "" } l1 =
      (⟨f, o, n, "", ""⟩ : CtrlState) := by
    unfold ctrlStep; rw [hn1, hh]
  rw [e2, e3]
  rfl

/-- Claim C10 amended: analyze is not idempotent on a shared instance, but
the exact doubling the claim states holds only when the diff opens with a
file header immediately followed by a hunk header (otherwise the leading
lines are re-processed under the stale file path and cursors of the first
run, as the counterexample shows).  Under that premise a second analyze on
the same instance returns doubled line counts and each output list equal to
the single-run list repeated twice; the raw maps coincide after both runs,
so fresh results require a new instance. -/
theorem C10_double_analyze (kws : List String) (diff : String)
    (l0 l1 : String) (rest : List String) (f : String) (o n : Nat)
    (h0 : splitLines diff = l0 :: l1 :: rest)
    (hf : parseFileHeader l0 = some f)
    (hn1 : parseFileHeader l1 = none)
    (hh : parseHunkHeader l1 = some (o, n)) :
    (analyzeTwice kws diff).lines_added = 2 * (analyze kws diff).lines_added ∧
    (analyzeTwice kws diff).lines_removed =
      2 * (analyze kws diff).lines_removed ∧
    (analyzeTwice kws diff).added_sorries =
      (analyze kws diff).added_sorries ++ (analyze kws diff).added_sorries ∧
    (analyzeTwice kws diff).removed_sorries =
      (analyze kws diff).removed_sorries ++ (analyze kws diff).removed_sorries ∧
    (analyzeTwice kws diff).affected_sorries =
      (analyze kws diff).affected_sorries ++
        (analyze kws diff).affected_sorries := by
  have hraw_a :
      (scan kws (categorize (scan kws initState (splitLines diff)))
        (splitLines diff)).raw_added =
      (scan kws initState (splitLines diff)).raw_added := by
    rw [scan_added_tr kws (splitLines diff)
        (categorize (scan kws initState (splitLines diff))),
      scan_added_tr kws (splitLines diff) initState, h0]
    simp only [traceAdded_two_headers kws l0 l1 f o n hf hn1 hh]
    rw [show (categorize (scan kws initState (l0 :: l1 :: rest))).raw_added =
        (scan kws initState (l0 :: l1 :: rest)).raw_added from rfl,
      scan_added_tr kws (l0 :: l1 :: rest) initState]
    simp only [traceAdded_two_headers kws l0 l1 f o n hf hn1 hh]
    exact mergeInto_self (traceAdded kws ⟨f, o, n, "", ""⟩ rest)
  have hraw_r :
      (scan kws (categorize (scan kws initState (splitLines diff)))
        (splitLines diff)).raw_removed =
      (scan kws initState (splitLines diff)).raw_removed := by
    rw [scan_removed_tr kws (splitLines diff)
        (categorize (scan kws initState (splitLines diff))),
      scan_removed_tr kws (splitLines diff) initState, h0]
    simp only [traceRemoved_two_headers kws l0 l1 f o n hf hn1 hh]
    rw [show (categorize (scan kws initState (l0 :: l1 :: rest))).raw_removed =
        (scan kws initState (l0 :: l1 :: rest)).raw_removed from rfl,
      scan_removed_tr kws (l0 :: l1 :: rest) initState]
    simp only [traceRemoved_two_headers kws l0 l1 f o n hf hn1 hh]
    exact mergeInto_self (traceRemoved kws ⟨f, o, n, "", ""⟩ rest)
  have hspA : ∀ g : String,
      specAddedTarget g (splitLines diff) = specAddedTarget f (l1 :: rest) := by
    intro g
    rw [h0]
    simp only [specAddedTarget, hf]
  have hspR : ∀ g : String,
      specRemovedTarget g (splitLines diff) =
        specRemovedTarget f (l1 :: rest) := by
    intro g
    rw [h0]
    simp only [specRemovedTarget, hf]
  have hcnt_a :
      (scan kws (categorize (scan kws initState (splitLines diff)))
        (splitLines diff)).lines_added =
      2 * (scan kws initState (splitLines diff)).lines_added := by
    have h1 := (scan_counts kws (splitLines diff) initState).1
    have h2 := (scan_counts kws (splitLines diff)
      (categorize (scan kws initState (splitLines diff)))).1
    rw [h2, h1]
    rw [show (categorize (scan kws initState (splitLines diff))).lines_added =
        (scan kws initState (splitLines diff)).lines_added from rfl, h1]
    rw [hspA (categorize
        (scan kws initState (splitLines diff))).current_file,
      hspA initState.current_file]
    rw [show initState.lines_added = 0 from rfl]
    omega
  have hcnt_r :
      (scan kws (categorize (scan kws initState (splitLines diff)))
        (splitLines diff)).lines_removed =
      2 * (scan kws initState (splitLines diff)).lines_removed := by
    have h1 := (scan_counts kws (splitLines diff) initState).2
    have h2 := (scan_counts kws (splitLines diff)
      (categorize (scan kws initState (splitLines diff)))).2
    rw [h2, h1]
    rw [show (categorize (scan kws initState (splitLines diff))).lines_removed =
        (scan kws initState (splitLines diff)).lines_removed from rfl, h1]
    rw [hspR (categorize
        (scan kws initState (splitLines diff))).current_file,
      hspR initState.current_file]
    rw [show initState.lines_removed = 0 from rfl]
    omega
  have houts1 := scan_outputs kws (splitLines diff) initState
  have houts2 := scan_outputs kws (splitLines diff)
    (categorize (scan kws initState (splitLines diff)))
  have hadd :
      (categorize (scan kws (categorize (scan kws initState (splitLines diff)))
        (splitLines diff))).added_sorries =
      (categorize (scan kws initState (splitLines diff))).added_sorries ++
        (categorize (scan kws initState (splitLines diff))).added_sorries := by
    rw [categorize_added]
    rw [houts2.1]
    rw [categorize_added]
    rw [houts1.1]
    rw [hraw_a, hraw_r]
    rw [show initState.added_sorries = ([] : List String) from rfl]
    simp
  have hrem :
      (categorize (scan kws (categorize (scan kws initState (splitLines diff)))
        (splitLines diff))).removed_sorries =
      (categorize (scan kws initState (splitLines diff))).removed_sorries ++
        (categorize (scan kws initState (splitLines diff))).removed_sorries := by
    rw [categorize_removed]
    rw [houts2.2.1]
    rw [categorize_removed]
    rw [houts1.2.1]
    rw [hraw_a, hraw_r]
    rw [show initState.removed_sorries = ([] : List String) from rfl]
    simp
  have haff :
      (categorize (scan kws (categorize (scan kws initState (splitLines diff)))
        (splitLines diff))).affected_sorries =
      (categorize (scan kws initState (splitLines diff))).affected_sorries ++
        (categorize (scan kws initState (splitLines diff))).affected_sorries := by
    rw [categorize_affected]
    rw [houts2.2.2]
    rw [categorize_affected]
    rw [houts1.2.2]
    rw [hraw_a, hraw_r]
    rw [show initState.affected_sorries = ([] : List AffectedInfo) from rfl]
    simp
  exact ⟨hcnt_a, hcnt_r, hadd, hrem, haff⟩

/-- Witness for C10_double_analyze on the concrete two-header diff. -/
theorem C10_double_analyze_witness :
    (analyzeTwice defaultLeanKeywords doubleDiff).lines_added =
      2 * (analyze defaultLeanKeywords doubleDiff).lines_added ∧
    (analyzeTwice defaultLeanKeywords doubleDiff).lines_removed =
      2 * (analyze defaultLeanKeywords doubleDiff).lines_removed ∧
    (analyzeTwice defaultLeanKeywords doubleDiff).added_sorries =
      (analyze defaultLeanKeywords doubleDiff).added_sorries ++
        (analyze defaultLeanKeywords doubleDiff).added_sorries ∧
    (analyzeTwice defaultLeanKeywords doubleDiff).removed_sorries =
      (analyze defaultLeanKeywords doubleDiff).removed_sorries ++
        (analyze defaultLeanKeywords doubleDiff).removed_sorries ∧
    (analyzeTwice defaultLeanKeywords doubleDiff).affected_sorries =
      (analyze defaultLeanKeywords doubleDiff).affected_sorries ++
        (analyze defaultLeanKeywords doubleDiff).affected_sorries :=
  C10_double_analyze defaultLeanKeywords doubleDiff
    "diff --git a/A.lean b/A.lean" "@@ -1,0 +1,1 @@"
    ["+theorem t : True := sorry"] "A.lean" 1 1
    (by decide) (by decide) (by decide) (by decide)
